import Mathlib

/-!
Verification development for the reactivity core of the repository
(`packages/reactivity/src/effect.ts`): a shallow embedding of the
dependency-tracking / change-propagation engine (`track`, `trigger`,
`createReactiveEffect`, `stop`, `cleanup`, `pauseTracking` /
`enableTracking` / `resetTracking`) together with theorems about it.

Modelling conventions:
  * JS property keys are strings or symbols (`Key`); the two iteration
    markers `ITERATE_KEY` / `MAP_KEY_ITERATE_KEY` are distinguished symbols.
  * A JS `Set<ReactiveEffect>` is modelled as an insertion-ordered
    duplicate-free `List Nat` of effect ids (`setAdd` appends only when the
    element is absent, matching `Set.prototype.add`); a JS `Map` is an
    insertion-ordered association list (`Map.prototype.set` updates in
    place, `Map.prototype.forEach` iterates in insertion order).
  * The module-level mutable variables (`targetMap`, `effectStack`,
    `activeEffect`, `shouldTrack`, `trackStack`, `uid`) become fields of an
    explicit `State` threaded through every operation.
  * Per-effect options are immutable after creation; they are supplied as
    an environment `env : Nat → ReactiveEffectOptions` keyed by effect id.
    The debug callbacks (`onTrack` / `onTrigger` / `onStop`), the scheduler
    invocation and the synchronous re-run of an effect are observable
    outputs, modelled as an emitted `List Event`; `trigger` computes its
    dispatch sequence (the bodies of the dispatched effects are external
    computations, run separately through `runEffect`).
  * The raw computation wrapped by an effect is an arbitrary state
    transformer `State → State × Except ε α`; a `.error` result models a JS
    exception thrown inside the computation.
  * `__DEV__` is the boolean parameter `dev` (the `onTrack` / `onTrigger`
    callbacks are guarded by it in the source).
-/

deriving instance DecidableEq for Except

namespace VueReactivity

/-- A JS property key: a string or a symbol (symbols are identified by a
numeric id in the model). -/
inductive Key where
  | str (s : String)
  | sym (id : Nat)
deriving DecidableEq

/-- `export const ITERATE_KEY = Symbol(...)` — the "keys iterated" marker. -/
def ITERATE_KEY : Key := Key.sym 0

/-- `export const MAP_KEY_ITERATE_KEY = Symbol(...)` — the "map keys
iterated" marker. -/
def MAP_KEY_ITERATE_KEY : Key := Key.sym 1

/-- The string key `'length'`. -/
def lengthStr : String := "length"

/-- The key `'length'` used by the array-length branch of `trigger`. -/
def lengthKey : Key := Key.str lengthStr

/-- What kind of object a reactive target is, as observed by the
`isArray` / `isMap` checks of the source. -/
inductive TargetKind where
  | plain
  | array
  | map
deriving DecidableEq

/-- A reactive target object: an identity plus its kind. -/
structure Target where
  id : Nat
  kind : TargetKind
deriving DecidableEq

/-- `isArray(target)` from `@vue/shared`. -/
def isArray (t : Target) : Bool := t.kind = TargetKind.array

/-- `isMap(target)` from `@vue/shared`. -/
def isMap (t : Target) : Bool := t.kind = TargetKind.map

/-- `TrackOpTypes` from `operations.ts`. -/
inductive TrackOpTypes where
  | GET
  | HAS
  | ITERATE
deriving DecidableEq

/-- `TriggerOpTypes` from `operations.ts`. -/
inductive TriggerOpTypes where
  | SET
  | ADD
  | DELETE
  | CLEAR
deriving DecidableEq

/-- The immutable options bundle of `ReactiveEffectOptions`, reduced to
what the core inspects: the presence of the `scheduler`, `onTrack`,
`onTrigger` and `onStop` callbacks, and the `allowRecurse` flag. -/
structure ReactiveEffectOptions where
  hasScheduler : Bool
  hasOnTrack : Bool
  hasOnTrigger : Bool
  hasOnStop : Bool
  allowRecurse : Bool
deriving DecidableEq

/-- A dependency set (`type Dep = Set<ReactiveEffect>`): the insertion
ordered, duplicate-free list of subscribed effect ids. -/
abbrev Dep := List Nat

/-- `type KeyToDepMap = Map<any, Dep>` as an insertion-ordered association
list. -/
abbrev KeyToDepMap := List (Key × Dep)

/-- The mutable per-effect fields of a `ReactiveEffect`: its `active` flag
and its `deps` list.  A membership of the dependency set for `(target,key)`
is recorded as the pair of the target id and the key (the source stores a
reference to the very `Set` object held in `targetMap`, which is never
replaced once created, so the `(target,key)` address identifies it). -/
structure EffectState where
  active : Bool
  deps : List (Nat × Key)
deriving DecidableEq

/-- The module-level mutable state of `effect.ts`. -/
structure State where
  targetMap : List (Nat × KeyToDepMap)
  effs : List (Nat × EffectState)
  effectStack : List Nat
  activeEffect : Option Nat
  shouldTrack : Bool
  trackStack : List Bool
  uid : Nat
deriving DecidableEq

/-- Lookup in an association list (JS `Map.prototype.get`). -/
def alGet [DecidableEq α] : List (α × β) → α → Option β
  | [], _ => none
  | (a, b) :: rest, k => if a = k then some b else alGet rest k

/-- Update-or-append in an association list (JS `Map.prototype.set`): an
existing key keeps its position, a new key is appended, preserving
insertion order. -/
def alSet [DecidableEq α] : List (α × β) → α → β → List (α × β)
  | [], k, v => [(k, v)]
  | (a, b) :: rest, k, v =>
      if a = k then (k, v) :: rest else (a, b) :: alSet rest k v

/-- JS `Set.prototype.add`: append if absent. -/
def setAdd (s : List Nat) (x : Nat) : List Nat :=
  if x ∈ s then s else s ++ [x]

/-- JS `Set.prototype.delete`: remove the element, keeping the order of
the rest. -/
def setDelete (s : List Nat) (x : Nat) : List Nat :=
  s.filter (fun y => y ≠ x)

/-- The per-effect mutable state of effect `e` (fresh effects start
`active` with empty `deps`, matching `createReactiveEffect`). -/
def State.eff (s : State) (e : Nat) : EffectState :=
  (alGet s.effs e).getD ⟨true, []⟩

/-- The dependency set registered for `(t, k)` in a registry value; empty
when the pair has never been tracked. -/
def tmAt (tm : List (Nat × KeyToDepMap)) (t : Nat) (k : Key) : Dep :=
  (alGet ((alGet tm t).getD []) k).getD []

/-- The dependency set currently registered for `(tid, k)`; empty when the
pair has never been tracked. -/
def State.depAt (s : State) (tid : Nat) (k : Key) : Dep :=
  tmAt s.targetMap tid k

/-- Observable outputs of the core: debug-callback firings and the two
ways `trigger` dispatches an effect. -/
inductive Event where
  | onTrack (eff : Nat) (target : Nat) (type : TrackOpTypes) (key : Key)
  | onTrigger (eff : Nat) (target : Nat) (type : TriggerOpTypes) (key : Option Key)
  | onStop (eff : Nat)
  | scheduled (eff : Nat)
  | ranEffect (eff : Nat)
deriving DecidableEq

/-- `pauseTracking()`: push the current `shouldTrack`, set it `false`. -/
def pauseTracking (s : State) : State :=
  { s with trackStack := s.trackStack ++ [s.shouldTrack], shouldTrack := false }

/-- `enableTracking()`: push the current `shouldTrack`, set it `true`. -/
def enableTracking (s : State) : State :=
  { s with trackStack := s.trackStack ++ [s.shouldTrack], shouldTrack := true }

/-- `resetTracking()`: pop the stack; `shouldTrack` becomes the popped
value, or `true` when the stack was empty (`last === undefined`). -/
def resetTracking (s : State) : State :=
  match s.trackStack.getLast? with
  | none => { s with shouldTrack := true }
  | some last =>
      { s with shouldTrack := last, trackStack := s.trackStack.dropLast }

/-- `track(target, type, key)`. Returns the new state and the list of
fired `onTrack` events. -/
def track (dev : Bool) (env : Nat → ReactiveEffectOptions) (target : Target)
    (type : TrackOpTypes) (key : Key) (s : State) : State × List Event :=
  match s.activeEffect with
  | none => (s, [])
  | some ae =>
    if s.shouldTrack = false then (s, [])
    else
      let depsMap := (alGet s.targetMap target.id).getD []
      let dep := (alGet depsMap key).getD []
      if ae ∈ dep then (s, [])
      else
        let s' : State := { s with
          targetMap := alSet s.targetMap target.id (alSet depsMap key (dep ++ [ae])),
          effs := alSet s.effs ae
            { s.eff ae with deps := (s.eff ae).deps ++ [(target.id, key)] } }
        (s', if dev && (env ae).hasOnTrack
             then [Event.onTrack ae target.id type key] else [])

/-- One step of `cleanup`'s loop: `deps[i].delete(effect)`, addressed
through the registry (the source deletes through the shared `Set`
reference; `targetMap` entries are never removed or replaced, so the
`(target,key)` pair resolves to the same set). -/
def depDelete (tm : List (Nat × KeyToDepMap)) : Nat × Key → Nat →
    List (Nat × KeyToDepMap)
  | (t0, k0), e =>
    match alGet tm t0 with
    | none => tm
    | some dm =>
      match alGet dm k0 with
      | none => tm
      | some dep => alSet tm t0 (alSet dm k0 (setDelete dep e))

/-- `cleanup(effect)`: remove the effect from every dependency set in its
`deps` list, then clear the list (`deps.length = 0`); a no-op when `deps`
is already empty (the `if (deps.length)` guard). -/
def cleanup (s : State) (e : Nat) : State :=
  let deps := (s.eff e).deps
  if deps = [] then s
  else
    { s with
      targetMap := deps.foldl (fun tm tk => depDelete tm tk e) s.targetMap,
      effs := alSet s.effs e { s.eff e with deps := [] } }

/-- `stop(effect)`: when still active, `cleanup`, fire `onStop` if
configured, and set `active = false`; otherwise a no-op. -/
def stop (env : Nat → ReactiveEffectOptions) (s : State) (e : Nat) :
    State × List Event :=
  if (s.eff e).active then
    let s1 := cleanup s e
    (({ s1 with effs := alSet s1.effs e { s1.eff e with active := false } }),
     if (env e).hasOnStop then [Event.onStop e] else [])
  else (s, [])

/-- The entry phase of a non-no-op run: `cleanup(effect)`, then inside the
`try` block `enableTracking()`, `effectStack.push(effect)`,
`activeEffect = effect`. -/
def runPrepare (s : State) (e : Nat) : State :=
  let s2 := enableTracking (cleanup s e)
  { s2 with effectStack := s2.effectStack ++ [e], activeEffect := some e }

/-- The `finally` phase of a run: `effectStack.pop()`, `resetTracking()`,
`activeEffect = effectStack[effectStack.length - 1]`. -/
def runFinalize (s : State) : State :=
  let s5 := resetTracking { s with effectStack := s.effectStack.dropLast }
  { s5 with activeEffect := s5.effectStack.getLast? }

/-- The wrapped `reactiveEffect` function built by `createReactiveEffect`,
applied to the raw computation `fn` (an arbitrary state transformer that
returns a value or raises).  The result value is `none` for the implicit
`undefined` returns; an `.error` models an exception propagating to the
caller (the `finally` phase still runs). -/
def runEffect (env : Nat → ReactiveEffectOptions)
    (fn : State → State × Except ε α) (e : Nat) (s : State) :
    State × Except ε (Option α) :=
  if (s.eff e).active = false then
    if (env e).hasScheduler then (s, Except.ok none)
    else
      let r := fn s
      (r.1, r.2.map some)
  else if e ∈ s.effectStack then (s, Except.ok none)
  else
    let r := fn (runPrepare s e)
    (runFinalize r.1, r.2.map some)

/-- The body of `createReactiveEffect` that registers a fresh effect
(`effect.id = uid++`, `active = true`, `deps = []`); returns the new state
and the id of the created effect. -/
def createReactiveEffect (s : State) : State × Nat :=
  ({ s with effs := alSet s.effs s.uid ⟨true, []⟩, uid := s.uid + 1 }, s.uid)

/-- The code points JS string-to-number trimming skips: the WhiteSpace
production (tab, VT, FF, space, NBSP, BOM and the Unicode space
separators) together with the LineTerminator production (LF, CR, LS,
PS). -/
def jsSpaceCodes : List Nat :=
  [9, 10, 11, 12, 13, 32, 160, 5760, 8192, 8193, 8194, 8195, 8196, 8197,
   8198, 8199, 8200, 8201, 8202, 8232, 8233, 8239, 8287, 12288, 65279]

/-- JS whitespace test used when trimming a string for numeric
conversion. -/
def isJsSpace (c : Char) : Bool :=
  jsSpaceCodes.contains c.toNat

/-- Value of a list of decimal digit characters. -/
def digitsVal (cs : List Char) : Nat :=
  cs.foldl (fun a c => a * 10 + (c.toNat - 48)) 0

/-- The result of JS `ToNumber` on a string when it is not `NaN`: positive
or negative infinity, or a finite value.  The finite value is kept exact
(a rational): IEEE-754 rounding of the parsed literal to a float64 is not
modelled, so comparisons below agree with JS whenever the literal's exact
value and its float64 rounding lie on the same side of the compared
number (always the case for the integer-index keys array triggers use). -/
inductive JsNum where
  | posInf
  | negInf
  | val (q : ℚ)
deriving DecidableEq

/-- Hexadecimal digit value. -/
def hexDigitVal (c : Char) : Option Nat :=
  if 48 ≤ c.toNat ∧ c.toNat ≤ 57 then some (c.toNat - 48)
  else if 97 ≤ c.toNat ∧ c.toNat ≤ 102 then some (c.toNat - 87)
  else if 65 ≤ c.toNat ∧ c.toNat ≤ 70 then some (c.toNat - 55)
  else none

/-- Octal digit value. -/
def octDigitVal (c : Char) : Option Nat :=
  if 48 ≤ c.toNat ∧ c.toNat ≤ 55 then some (c.toNat - 48) else none

/-- Binary digit value. -/
def binDigitVal (c : Char) : Option Nat :=
  if c.toNat = 48 then some 0
  else if c.toNat = 49 then some 1
  else none

/-- Value of a non-empty all-valid digit string in radix `r`; `none` when
empty or any character is not a digit of the radix. -/
def radixVal (r : Nat) (digVal : Char → Option Nat) (cs : List Char) :
    Option Nat :=
  if cs = [] then none
  else
    cs.foldl
      (fun acc c =>
        match acc, digVal c with
        | some a, some d => some (a * r + d)
        | _, _ => none)
      (some 0)

/-- `10 ^ e` over the rationals for a possibly negative exponent. -/
def qPow10 (e : Int) : ℚ :=
  if 0 ≤ e then (10 : ℚ) ^ e.toNat else 1 / (10 : ℚ) ^ (-e).toNat

/-- The ExponentPart production: `e`/`E`, an optional sign, then decimal
digits; the whole remainder of the string must be consumed. -/
def expPart (cs : List Char) : Option Int :=
  match cs with
  | [] => none
  | c :: rest =>
    if c.toNat = 101 ∨ c.toNat = 69 then
      match rest with
      | [] => none
      | c2 :: rest2 =>
        if c2.toNat = 43 then
          if rest2 ≠ [] ∧ rest2.all Char.isDigit then
            some ((digitsVal rest2 : Nat) : Int)
          else none
        else if c2.toNat = 45 then
          if rest2 ≠ [] ∧ rest2.all Char.isDigit then
            some (-((digitsVal rest2 : Nat) : Int))
          else none
        else if rest.all Char.isDigit then some ((digitsVal rest : Nat) : Int)
        else none
    else none

/-- The unsigned StrDecimalLiteral body: digits, an optional fraction, an
optional exponent (`Infinity` is handled by the caller).  `none` is
`NaN`. -/
def unsignedDec (cs : List Char) : Option ℚ :=
  let mant := cs.takeWhile Char.isDigit
  let rest := cs.dropWhile Char.isDigit
  match rest with
  | [] => if mant = [] then none else some ((digitsVal mant : ℚ))
  | c :: rest2 =>
    if c.toNat = 46 then
      let frac := rest2.takeWhile Char.isDigit
      let rest3 := rest2.dropWhile Char.isDigit
      if mant = [] ∧ frac = [] then none
      else
        let base : ℚ :=
          (digitsVal mant : ℚ) + (digitsVal frac : ℚ) / (10 : ℚ) ^ frac.length
        match rest3 with
        | [] => some base
        | _ :: _ => (expPart rest3).map (fun e => base * qPow10 e)
    else
      if mant = [] then none
      else (expPart rest).map (fun e => (digitsVal mant : ℚ) * qPow10 e)

/-- The string `Infinity`. -/
def infinityStr : String := "Infinity"

/-- A StrDecimalLiteral after its sign has been removed. -/
def decCore (pos : Bool) (cs : List Char) : Option JsNum :=
  if cs = infinityStr.data then
    some (if pos then JsNum.posInf else JsNum.negInf)
  else (unsignedDec cs).map (fun q => JsNum.val (if pos then q else -q))

/-- A StrDecimalLiteral: optional `+`/`-`, then `Infinity` or an unsigned
decimal literal. -/
def signedDec (cs : List Char) : Option JsNum :=
  match cs with
  | [] => none
  | c :: rest =>
    if c.toNat = 43 then decCore true rest
    else if c.toNat = 45 then decCore false rest
    else decCore true cs

/-- JS `ToNumber` on a string, following the StringNumericLiteral grammar:
trim whitespace; the empty string is `0`; an unsigned `0x`/`0X`, `0o`/`0O`
or `0b`/`0B` radix literal; otherwise a signed decimal literal (digits
with optional fraction and exponent, or `Infinity`); anything else is
`NaN` (`none`). -/
def jsStringToNumber (s : String) : Option JsNum :=
  let cs := ((s.data.dropWhile isJsSpace).reverse.dropWhile isJsSpace).reverse
  match cs with
  | [] => some (JsNum.val 0)
  | c :: c2 :: rest2 =>
    if c.toNat = 48 ∧ (c2.toNat = 120 ∨ c2.toNat = 88) then
      (radixVal 16 hexDigitVal rest2).map (fun n => JsNum.val (n : ℚ))
    else if c.toNat = 48 ∧ (c2.toNat = 111 ∨ c2.toNat = 79) then
      (radixVal 8 octDigitVal rest2).map (fun n => JsNum.val (n : ℚ))
    else if c.toNat = 48 ∧ (c2.toNat = 98 ∨ c2.toNat = 66) then
      (radixVal 2 binDigitVal rest2).map (fun n => JsNum.val (n : ℚ))
    else signedDec cs
  | _ => signedDec cs

/-- The JS comparison `key >= newValue` performed by the array-length
branch of `trigger`, where `newValue` is a number (`none` models an
`undefined` `newValue`, which compares as `NaN`, i.e. `false`).  A string
key is coerced with `ToNumber` (`NaN` makes the comparison `false`,
`Infinity` compares as expected); a symbol key cannot be coerced — the
comparison throws a `TypeError`, modelled as `.error ()`. -/
def jsGeNum (k : Key) (newValue : Option Int) : Except Unit Bool :=
  match k with
  | Key.sym _ => Except.error ()
  | Key.str s =>
    match jsStringToNumber s, newValue with
    | some (JsNum.val q), some b => Except.ok (decide ((b : ℚ) ≤ q))
    | some JsNum.posInf, some _ => Except.ok true
    | _, _ => Except.ok false

/-- JS `parseInt(s, 10)`, modelled as: skip leading whitespace, read the
longest prefix of decimal digits; no digits means `NaN` (`none`).  (The
sign and radix-prefix handling of the real `parseInt` cannot change
`isIntegerKey` below: a key starting with a minus sign is rejected outright
and for any other non-digit lead the canonical-form comparison fails.) -/
def jsParseInt (s : String) : Option Nat :=
  match (s.data.dropWhile isJsSpace).takeWhile Char.isDigit with
  | [] => none
  | ds => some (digitsVal ds)

/-- `isIntegerKey` from `@vue/shared`:
`isString(key) && key !== 'NaN' && key[0] !== '-' && '' + parseInt(key, 10) === key`.
The argument is the optional `key` parameter of `trigger` (an `undefined`
or symbol key is not a string, hence `false`). -/
def isIntegerKey (k : Option Key) : Bool :=
  match k with
  | some (Key.str s) =>
      s ≠ "NaN" &&
      (match s.data with
       | c :: _ => c.toNat ≠ 45
       | [] => true) &&
      (match jsParseInt s with
       | none => false
       | some n => toString n = s)
  | _ => false

/-- The membership guard of the `add` closure in `trigger`:
`effect !== activeEffect || effect.allowRecurse`. -/
def triggerGuard (env : Nat → ReactiveEffectOptions) (ae : Option Nat)
    (e : Nat) : Bool :=
  decide (some e ≠ ae) || (env e).allowRecurse

/-- The `add` closure of `trigger`: fold the candidate dependency set into
the accumulated `effects` set, skipping the currently active effect unless
it allows recursion.  (`add(undefined)` in the source is a no-op; callers
below pass the empty list for a missing set.) -/
def addEffects (env : Nat → ReactiveEffectOptions) (ae : Option Nat)
    (acc : List Nat) (dep : Dep) : List Nat :=
  dep.foldl (fun a e => if triggerGuard env ae e then setAdd a e else a) acc

/-- The step function of the array-length branch of `trigger`. -/
def lengthStep (env : Nat → ReactiveEffectOptions) (ae : Option Nat)
    (nv : Option Int) (acc : List Nat) (kv : Key × Dep) :
    Except Unit (List Nat) :=
  if kv.1 = lengthKey then Except.ok (addEffects env ae acc kv.2)
  else do
    let b ← jsGeNum kv.1 nv
    pure (if b then addEffects env ae acc kv.2 else acc)

/-- The set-building phase of `trigger`: computes the merged, deduplicated
`effects` collection from the target's `depsMap`, or raises (`.error ()`)
when the array-length branch compares a symbol key against the new
length. -/
def triggerEffects (env : Nat → ReactiveEffectOptions) (ae : Option Nat)
    (target : Target) (type : TriggerOpTypes) (key : Option Key)
    (newValue : Option Int) (depsMap : KeyToDepMap) :
    Except Unit (List Nat) :=
  if type = TriggerOpTypes.CLEAR then
    Except.ok (depsMap.foldl (fun acc kv => addEffects env ae acc kv.2) [])
  else if key = some lengthKey ∧ isArray target then
    depsMap.foldlM (lengthStep env ae newValue) []
  else
    let acc1 :=
      match key with
      | none => []
      | some k => addEffects env ae [] ((alGet depsMap k).getD [])
    Except.ok
      (match type with
       | TriggerOpTypes.ADD =>
           if isArray target = false then
             let a := addEffects env ae acc1 ((alGet depsMap ITERATE_KEY).getD [])
             if isMap target then
               addEffects env ae a ((alGet depsMap MAP_KEY_ITERATE_KEY).getD [])
             else a
           else if isIntegerKey key then
             addEffects env ae acc1 ((alGet depsMap lengthKey).getD [])
           else acc1
       | TriggerOpTypes.DELETE =>
           if isArray target = false then
             let a := addEffects env ae acc1 ((alGet depsMap ITERATE_KEY).getD [])
             if isMap target then
               addEffects env ae a ((alGet depsMap MAP_KEY_ITERATE_KEY).getD [])
             else a
           else acc1
       | TriggerOpTypes.SET =>
           if isMap target then
             addEffects env ae acc1 ((alGet depsMap ITERATE_KEY).getD [])
           else acc1
       | TriggerOpTypes.CLEAR => acc1)

/-- The `run` closure of `trigger` applied to one collected effect: fire
`onTrigger` in a dev build when configured, then either invoke the
scheduler with the effect or run the effect synchronously. -/
def dispatchOne (dev : Bool) (env : Nat → ReactiveEffectOptions)
    (target : Target) (type : TriggerOpTypes) (key : Option Key) (e : Nat) :
    List Event :=
  (if dev && (env e).hasOnTrigger
   then [Event.onTrigger e target.id type key] else []) ++
  (if (env e).hasScheduler then [Event.scheduled e] else [Event.ranEffect e])

/-- `trigger(target, type, key, newValue, ...)`: a no-op (`.ok []`) when
the target has never been tracked; otherwise build the merged `effects`
collection and dispatch each collected effect once, in merge order
(`effects.forEach(run)`).  The produced `Event` list is the observable
dispatch sequence; `.error ()` models the `TypeError` thrown by the
length-branch key coercion on a symbol key. -/
def trigger (dev : Bool) (env : Nat → ReactiveEffectOptions)
    (target : Target) (type : TriggerOpTypes) (key : Option Key)
    (newValue : Option Int) (s : State) : Except Unit (List Event) :=
  match alGet s.targetMap target.id with
  | none => Except.ok []
  | some depsMap =>
    (triggerEffects env s.activeEffect target type key newValue depsMap).map
      (fun l => (l.map (dispatchOne dev env target type key)).flatten)

/-- Key-uniqueness well-formedness of a registry value: the outer map and
every per-target key map have duplicate-free key lists.  (JS `Map` /
`WeakMap` keys are unique by construction; the association-list model
makes this an explicit invariant.) -/
def wfTm (tm : List (Nat × KeyToDepMap)) : Prop :=
  (tm.map Prod.fst).Nodup ∧ ∀ tdm ∈ tm, (tdm.2.map Prod.fst).Nodup

/-- Key-uniqueness well-formedness of the mutable state: registry and
effect table have duplicate-free key lists. -/
def wfState (s : State) : Prop :=
  wfTm s.targetMap ∧ (s.effs.map Prod.fst).Nodup

/-- The bidirectional membership invariant between the registry and the
per-effect `deps` lists, stated over the stored entries (decidable on
concrete states): every subscriber recorded in a dependency set lists that
set in its `deps`, and every set listed in an effect's `deps` contains the
effect. -/
def goodState (s : State) : Prop :=
  (∀ tdm ∈ s.targetMap, ∀ kd ∈ tdm.2, ∀ e ∈ kd.2,
     (tdm.1, kd.1) ∈ (s.eff e).deps) ∧
  (∀ ee ∈ s.effs, ∀ tk ∈ ee.2.deps, ee.1 ∈ s.depAt tk.1 tk.2)

/-- The same invariant phrased through the lookup functions, convenient in
proofs. -/
def goodRel (s : State) : Prop :=
  (∀ t k x, x ∈ s.depAt t k → (t, k) ∈ (s.eff x).deps) ∧
  (∀ x : Nat, ∀ tk ∈ (s.eff x).deps, x ∈ s.depAt tk.1 tk.2)

instance wfTmDecidable (tm : List (Nat × KeyToDepMap)) : Decidable (wfTm tm) := by
  unfold wfTm
  infer_instance

instance wfStateDecidable (s : State) : Decidable (wfState s) := by
  unfold wfState
  infer_instance

instance goodStateDecidable (s : State) : Decidable (goodState s) := by
  unfold goodState
  infer_instance

/-! Concrete objects used by the witness and counterexample theorems. -/

/-- Options bundle with nothing configured. -/
def optsNone : ReactiveEffectOptions := ⟨false, false, false, false, false⟩

/-- Environment in which no effect has options configured. -/
def env0 : Nat → ReactiveEffectOptions := fun _ => optsNone

/-- Environment in which exactly effect `2` has a scheduler configured. -/
def envSched2 : Nat → ReactiveEffectOptions :=
  fun n => ⟨n = 2, false, false, false, false⟩

/-- A plain (non-array, non-map) target with id `0`. -/
def tPlain : Target := ⟨0, TargetKind.plain⟩

/-- An array target with id `0`. -/
def tArr : Target := ⟨0, TargetKind.array⟩

/-- The string key `'a'`. -/
def keyA : Key := Key.str "a"

/-- The string key `'00'`: not an integer key (its canonical numeric form
is `'0'`), but its JS numeric coercion is `0`. -/
def key00 : Key := Key.str "00"

/-- The string key `'3'`. -/
def key3 : Key := Key.str "3"

/-- Initial-style state holding one fresh active effect with id `0`. -/
def s0 : State := ⟨[], [(0, ⟨true, []⟩)], [], none, true, [], 1⟩

/-- State as seen inside a run of effect `0` (on the stack, active effect,
tracking enabled). -/
def sAct : State :=
  ⟨[], [(0, ⟨true, []⟩)], [0], some 0, true, [true], 1⟩

/-- `sAct` after effect `0` tracked `(tPlain, keyA)`. -/
def sTracked : State := (track true env0 tPlain TrackOpTypes.GET keyA sAct).1

/-- A state whose target `0` has two overlapping dependency sets (effect
`2` subscribed under both keys). -/
def sOverlap : State :=
  ⟨[(0, [(keyA, [1, 2]), (key00, [2, 3])])], [], [], none, true, [], 0⟩

/-- A state tracking both a plain key and the iteration marker of target
`0`. -/
def sIter : State :=
  ⟨[(0, [(keyA, [1]), (ITERATE_KEY, [4])])], [], [], none, true, [], 0⟩

/-- A state whose array target `0` has dependency sets for index `'3'` and
for `'length'`. -/
def sLen : State :=
  ⟨[(0, [(key3, [2]), (lengthKey, [1])])], [], [], none, true, [], 0⟩

/-- A state whose array target `0` has a dependency set registered under a
symbol key (the iteration marker). -/
def sSymDep : State :=
  ⟨[(0, [(ITERATE_KEY, [5])])], [(5, ⟨true, [(0, ITERATE_KEY)]⟩)], [], none, true, [], 6⟩

/-- A raw computation that stops its own effect (id `0`) mid-run and then
performs a tracked read of `(tPlain, keyA)`. -/
def fnSelfStop : State → State × Except Unit Nat := fun s =>
  ((track false env0 tPlain TrackOpTypes.GET keyA (stop env0 s 0).1).1,
   Except.ok 0)

/-- The state after running effect `0` with the self-stopping computation:
the effect is stopped yet subscribed to `(tPlain, keyA)`. -/
def sSelfStopped : State := (runEffect env0 fnSelfStop 0 s0).1

/-- A raw computation that returns `7` without touching the state. -/
def fnConst7 : State → State × Except Unit Nat := fun s => (s, Except.ok 7)

/-- A raw computation that raises (error code `3`) without touching the
state. -/
def fnThrow3 : State → State × Except Nat Nat := fun s => (s, Except.error 3)

/-- A raw computation that returns `9` without touching the state. -/
def fnOk9 : State → State × Except Nat Nat := fun s => (s, Except.ok 9)

/-- A state holding one stopped (inactive) effect with id `0`. -/
def sStopped : State := ⟨[], [(0, ⟨false, []⟩)], [], none, true, [], 1⟩

/-- A state holding one stopped (inactive) effect with id `2` (the effect
that has a scheduler in `envSched2`). -/
def sStopped2 : State := ⟨[], [(2, ⟨false, []⟩)], [], none, true, [], 3⟩

/-! Association-list and ordered-set lemmas. -/

theorem alGet_alSet_self [DecidableEq α] (l : List (α × β)) (k : α) (v : β) :
    alGet (alSet l k v) k = some v := by
  induction l with
  | nil => simp [alGet, alSet]
  | cons hd tl ih =>
    obtain ⟨a, b⟩ := hd
    by_cases h : a = k
    · simp [alSet, alGet, h]
    · simpa [alSet, alGet, h] using ih

theorem alGet_alSet_ne [DecidableEq α] (l : List (α × β)) (k k' : α) (v : β)
    (h : k' ≠ k) : alGet (alSet l k v) k' = alGet l k' := by
  have h' : ¬ k = k' := fun hc => h hc.symm
  induction l with
  | nil => simp [alGet, alSet, h']
  | cons hd tl ih =>
    obtain ⟨a, b⟩ := hd
    by_cases hh : a = k
    · subst hh
      simp [alSet, alGet, h']
    · by_cases hk' : a = k' <;> simp [alSet, alGet, hh, hk', h, ih]

theorem alGet_mem [DecidableEq α] {l : List (α × β)} {k : α} {b : β}
    (h : alGet l k = some b) : (k, b) ∈ l := by
  induction l with
  | nil => simp [alGet] at h
  | cons hd tl ih =>
    obtain ⟨a, c⟩ := hd
    by_cases hh : a = k
    · subst hh
      simp only [alGet, if_pos rfl] at h
      cases h
      exact List.mem_cons_self _ _
    · simp only [alGet, hh, ite_false] at h
      exact List.mem_cons_of_mem _ (ih h)

theorem mem_alGet_of_nodup [DecidableEq α] {l : List (α × β)} {k : α} {b : β}
    (hnd : (l.map Prod.fst).Nodup) (h : (k, b) ∈ l) : alGet l k = some b := by
  induction l with
  | nil => simp at h
  | cons hd tl ih =>
    obtain ⟨a, c⟩ := hd
    simp only [List.map_cons, List.nodup_cons] at hnd
    rcases List.mem_cons.mp h with h | h
    · cases h
      simp [alGet]
    · have hk : a ≠ k := by
        intro hc
        subst hc
        exact hnd.1 (List.mem_map.mpr ⟨(a, b), h, rfl⟩)
      simp [alGet, hk, ih hnd.2 h]

theorem alSet_map_fst [DecidableEq α] (l : List (α × β)) (k : α) (v : β) :
    (alSet l k v).map Prod.fst =
      if k ∈ l.map Prod.fst then l.map Prod.fst else l.map Prod.fst ++ [k] := by
  induction l with
  | nil => simp [alSet]
  | cons hd tl ih =>
    obtain ⟨a, b⟩ := hd
    by_cases h : a = k
    · subst h
      simp [alSet]
    · have h' : ¬ k = a := fun hc => h hc.symm
      simp only [alSet, h, ite_false, List.map_cons, ih]
      by_cases hm : k ∈ tl.map Prod.fst <;> simp [hm, h']

theorem alSet_nodup_fst [DecidableEq α] {l : List (α × β)} (k : α) (v : β)
    (hnd : (l.map Prod.fst).Nodup) : ((alSet l k v).map Prod.fst).Nodup := by
  rw [alSet_map_fst]
  split
  · exact hnd
  · next h => simpa [List.nodup_append, h] using hnd

theorem mem_setAdd {s : List Nat} {x y : Nat} :
    x ∈ setAdd s y ↔ x ∈ s ∨ x = y := by
  unfold setAdd
  split
  · next h =>
    constructor
    · exact Or.inl
    · rintro (hx | rfl)
      · exact hx
      · exact h
  · simp

theorem nodup_setAdd {s : List Nat} (y : Nat) (h : s.Nodup) :
    (setAdd s y).Nodup := by
  unfold setAdd
  split
  · exact h
  · next hy => simpa [List.nodup_append, hy] using h

theorem mem_foldl_setAdd (l : List Nat) (acc : List Nat) (x : Nat) :
    x ∈ l.foldl setAdd acc ↔ x ∈ acc ∨ x ∈ l := by
  induction l generalizing acc with
  | nil => simp
  | cons hd tl ih =>
    simp only [List.foldl_cons, ih, mem_setAdd, List.mem_cons]
    tauto

theorem nodup_foldl_setAdd (l : List Nat) {acc : List Nat} (h : acc.Nodup) :
    (l.foldl setAdd acc).Nodup := by
  induction l generalizing acc with
  | nil => exact h
  | cons hd tl ih => exact ih (nodup_setAdd hd h)

theorem mem_setDelete {s : List Nat} {x y : Nat} :
    x ∈ setDelete s y ↔ x ∈ s ∧ x ≠ y := by
  simp [setDelete, List.mem_filter]

theorem setDelete_setDelete (s : List Nat) (y : Nat) :
    setDelete (setDelete s y) y = setDelete s y := by
  simp [setDelete, List.filter_filter]

/-! Lemmas about the `add` closure of `trigger`. -/

theorem addEffects_eq_filter_foldl (env : Nat → ReactiveEffectOptions)
    (ae : Option Nat) (acc : List Nat) (dep : Dep) :
    addEffects env ae acc dep =
      (dep.filter (triggerGuard env ae)).foldl setAdd acc := by
  induction dep generalizing acc with
  | nil => simp [addEffects]
  | cons hd tl ih =>
    by_cases h : triggerGuard env ae hd
    · simp [addEffects, List.filter_cons, h] at ih ⊢
      exact ih _
    · simp only [Bool.not_eq_true] at h
      simp [addEffects, List.filter_cons, h] at ih ⊢
      exact ih _

theorem mem_addEffects {env : Nat → ReactiveEffectOptions} {ae : Option Nat}
    {acc : List Nat} {dep : Dep} {x : Nat} :
    x ∈ addEffects env ae acc dep ↔
      x ∈ acc ∨ (x ∈ dep ∧ triggerGuard env ae x = true) := by
  rw [addEffects_eq_filter_foldl, mem_foldl_setAdd, List.mem_filter]

theorem nodup_addEffects (env : Nat → ReactiveEffectOptions) (ae : Option Nat)
    {acc : List Nat} (dep : Dep) (h : acc.Nodup) :
    (addEffects env ae acc dep).Nodup := by
  rw [addEffects_eq_filter_foldl]
  exact nodup_foldl_setAdd _ h

theorem triggerGuard_iff {env : Nat → ReactiveEffectOptions} {ae : Option Nat}
    {e : Nat} :
    triggerGuard env ae e = true ↔ (some e ≠ ae ∨ (env e).allowRecurse = true) := by
  simp [triggerGuard]

/-! Lemmas about `depDelete` and `cleanup`. -/

theorem tmAt_depDelete (tm : List (Nat × KeyToDepMap)) (tk : Nat × Key)
    (e t : Nat) (k : Key) :
    tmAt (depDelete tm tk e) t k =
      if (t, k) = tk then setDelete (tmAt tm t k) e else tmAt tm t k := by
  obtain ⟨t0, k0⟩ := tk
  cases hdm : alGet tm t0 with
  | none =>
    simp only [depDelete, hdm]
    split
    · next heq =>
      rw [Prod.mk.injEq] at heq
      obtain ⟨rfl, rfl⟩ := heq
      simp [tmAt, alGet, hdm, setDelete]
    · rfl
  | some dm =>
    cases hdep : alGet dm k0 with
    | none =>
      simp only [depDelete, hdm, hdep]
      split
      · next heq =>
        rw [Prod.mk.injEq] at heq
        obtain ⟨rfl, rfl⟩ := heq
        simp [tmAt, alGet, hdm, hdep, setDelete]
      · rfl
    | some dep =>
      simp only [depDelete, hdm, hdep]
      split
      · next heq =>
        rw [Prod.mk.injEq] at heq
        obtain ⟨rfl, rfl⟩ := heq
        simp [tmAt, hdm, hdep, alGet_alSet_self]
      · next hne =>
        rw [Prod.mk.injEq] at hne
        by_cases ht : t = t0
        · subst ht
          have hk : k ≠ k0 := fun hc => hne ⟨rfl, hc⟩
          simp [tmAt, hdm, hdep, alGet_alSet_self, alGet_alSet_ne _ _ _ _ hk]
        · simp [tmAt, alGet_alSet_ne _ _ _ _ ht]

theorem tmAt_foldl_depDelete (L : List (Nat × Key))
    (tm : List (Nat × KeyToDepMap)) (e t : Nat) (k : Key) :
    tmAt (L.foldl (fun acc tk => depDelete acc tk e) tm) t k =
      if (t, k) ∈ L then setDelete (tmAt tm t k) e else tmAt tm t k := by
  induction L generalizing tm with
  | nil => simp
  | cons hd tl ih =>
    simp only [List.foldl_cons, ih, tmAt_depDelete]
    by_cases h1 : (t, k) = hd <;>
      by_cases h2 : (t, k) ∈ tl <;>
        simp [h1, h2, setDelete_setDelete, List.mem_cons]

theorem cleanup_depAt (s : State) (e t : Nat) (k : Key) :
    (cleanup s e).depAt t k =
      if (t, k) ∈ (s.eff e).deps then setDelete (s.depAt t k) e
      else s.depAt t k := by
  by_cases hd : (s.eff e).deps = []
  · rw [cleanup]
    simp [hd]
  · rw [cleanup]
    simp only [hd, ite_false]
    simp [State.depAt, tmAt_foldl_depDelete]

theorem cleanup_eff_self (s : State) (e : Nat) :
    (cleanup s e).eff e = { s.eff e with deps := [] } := by
  by_cases hd : (s.eff e).deps = []
  · rw [cleanup]
    simp only [hd, ite_true]
    rw [show ({ s.eff e with deps := [] } : EffectState) =
          ⟨(s.eff e).active, []⟩ from rfl, ← hd]
  · rw [cleanup]
    simp only [hd, ite_false]
    simp [State.eff, alGet_alSet_self]

theorem cleanup_eff_ne (s : State) (e e' : Nat) (h : e' ≠ e) :
    (cleanup s e).eff e' = s.eff e' := by
  rw [cleanup]
  split
  · rfl
  · simp [State.eff, alGet_alSet_ne _ _ _ _ h]

theorem cleanup_ctx (s : State) (e : Nat) :
    (cleanup s e).effectStack = s.effectStack ∧
    (cleanup s e).activeEffect = s.activeEffect ∧
    (cleanup s e).shouldTrack = s.shouldTrack ∧
    (cleanup s e).trackStack = s.trackStack ∧
    (cleanup s e).uid = s.uid := by
  rw [cleanup]
  split <;> exact ⟨rfl, rfl, rfl, rfl, rfl⟩

theorem cleanup_removes (s : State) (e : Nat) :
    ∀ tk ∈ (s.eff e).deps, e ∉ (cleanup s e).depAt tk.1 tk.2 := by
  intro tk htk hmem
  rw [cleanup_depAt] at hmem
  simp only [show ((tk.1, tk.2) : Nat × Key) = tk from rfl, htk, ite_true] at hmem
  exact (mem_setDelete.mp hmem).2 rfl

/-! Path lemmas for `runEffect` and corollaries of `triggerEffects_spec`. -/

theorem runEffect_inactive_sched {ε α : Type} (env : Nat → ReactiveEffectOptions)
    (fn : State → State × Except ε α) (e : Nat) (s : State)
    (hact : (s.eff e).active = false) (hs : (env e).hasScheduler = true) :
    runEffect env fn e s = (s, Except.ok none) := by
  simp [runEffect, hact, hs]

theorem runEffect_inactive_raw {ε α : Type} (env : Nat → ReactiveEffectOptions)
    (fn : State → State × Except ε α) (e : Nat) (s : State)
    (hact : (s.eff e).active = false) (hs : (env e).hasScheduler = false) :
    runEffect env fn e s = ((fn s).1, (fn s).2.map some) := by
  simp [runEffect, hact, hs]

theorem runEffect_onstack {ε α : Type} (env : Nat → ReactiveEffectOptions)
    (fn : State → State × Except ε α) (e : Nat) (s : State)
    (hact : (s.eff e).active = true) (hstk : e ∈ s.effectStack) :
    runEffect env fn e s = (s, Except.ok none) := by
  simp [runEffect, hact, hstk]

theorem runEffect_active {ε α : Type} (env : Nat → ReactiveEffectOptions)
    (fn : State → State × Except ε α) (e : Nat) (s : State)
    (hact : (s.eff e).active = true) (hstk : e ∉ s.effectStack) :
    runEffect env fn e s =
      (runFinalize (fn (runPrepare s e)).1, (fn (runPrepare s e)).2.map some) := by
  simp [runEffect, hact, hstk, runPrepare, runFinalize]

/-! Structure lemmas about the set-building phase of `trigger`. -/

theorem foldl_addEffects_eq (env : Nat → ReactiveEffectOptions)
    (ae : Option Nat) (ds : List Dep) (acc : List Nat) :
    ds.foldl (addEffects env ae) acc =
      (ds.flatten.filter (triggerGuard env ae)).foldl setAdd acc := by
  induction ds generalizing acc with
  | nil => simp
  | cons hd tl ih =>
    simp [List.filter_append, List.foldl_append, addEffects_eq_filter_foldl,
      ih]

/-- `jsGeNum` never raises on a string key. -/
theorem jsGeNum_str_ok (s : String) (nv : Option Int) :
    ∃ b, jsGeNum (Key.str s) nv = Except.ok b := by
  cases h1 : jsStringToNumber s with
  | none => exact ⟨false, by simp [jsGeNum, h1]⟩
  | some jn =>
    cases jn with
    | posInf =>
      cases nv with
      | none => exact ⟨false, by simp [jsGeNum, h1]⟩
      | some b => exact ⟨true, by simp [jsGeNum, h1]⟩
    | negInf =>
      cases nv with
      | none => exact ⟨false, by simp [jsGeNum, h1]⟩
      | some b => exact ⟨false, by simp [jsGeNum, h1]⟩
    | val q =>
      cases nv with
      | none => exact ⟨false, by simp [jsGeNum, h1]⟩
      | some b => exact ⟨decide ((b : ℚ) ≤ q), by simp [jsGeNum, h1]⟩

theorem lengthFold_ok (env : Nat → ReactiveEffectOptions) (ae : Option Nat)
    (nv : Option Int) (dm : KeyToDepMap) (acc L : List Nat)
    (h : dm.foldlM (lengthStep env ae nv) acc = Except.ok L) :
    ∃ ds : List Dep, (∀ d ∈ ds, ∃ kv ∈ dm, d = kv.2) ∧
      L = ds.foldl (addEffects env ae) acc := by
  induction dm generalizing acc with
  | nil =>
    refine ⟨[], by simp, ?_⟩
    simp only [List.foldlM_nil] at h
    cases h
    rfl
  | cons kv rest ih =>
    rw [List.foldlM_cons] at h
    by_cases hk : kv.1 = lengthKey
    · simp only [lengthStep, hk, ite_true] at h
      have h' : rest.foldlM (lengthStep env ae nv)
          (addEffects env ae acc kv.2) = Except.ok L := h
      obtain ⟨ds, hds, hL⟩ := ih _ h'
      exact ⟨kv.2 :: ds, by
        intro d hd
        rcases List.mem_cons.mp hd with rfl | hd
        · exact ⟨kv, List.mem_cons_self _ _, rfl⟩
        · obtain ⟨kv', hkv', hdd⟩ := hds d hd
          exact ⟨kv', List.mem_cons_of_mem _ hkv', hdd⟩, by simpa using hL⟩
    · simp only [lengthStep, hk, ite_false] at h
      cases hkk : kv.1 with
      | sym i =>
        rw [hkk] at h
        simp [jsGeNum] at h
        cases h
      | str str0 =>
        rw [hkk] at h
        obtain ⟨b, hb⟩ := jsGeNum_str_ok str0 nv
        rw [hb] at h
        cases b with
        | true =>
          have h' : rest.foldlM (lengthStep env ae nv)
              (addEffects env ae acc kv.2) = Except.ok L := h
          obtain ⟨ds, hds, hL⟩ := ih _ h'
          exact ⟨kv.2 :: ds, by
            intro d hd
            rcases List.mem_cons.mp hd with rfl | hd
            · exact ⟨kv, List.mem_cons_self _ _, rfl⟩
            · obtain ⟨kv', hkv', hdd⟩ := hds d hd
              exact ⟨kv', List.mem_cons_of_mem _ hkv', hdd⟩, by simpa using hL⟩
        | false =>
          have h' : rest.foldlM (lengthStep env ae nv) acc = Except.ok L := h
          obtain ⟨ds, hds, hL⟩ := ih _ h'
          exact ⟨ds, by
            intro d hd
            obtain ⟨kv', hkv', hdd⟩ := hds d hd
            exact ⟨kv', List.mem_cons_of_mem _ hkv', hdd⟩, hL⟩

theorem lengthFold_error (env : Nat → ReactiveEffectOptions) (ae : Option Nat)
    (nv : Option Int) (dm : KeyToDepMap) (acc : List Nat) :
    dm.foldlM (lengthStep env ae nv) acc = Except.error () ↔
      ∃ kv ∈ dm, ∃ i, kv.1 = Key.sym i := by
  induction dm generalizing acc with
  | nil =>
    simp only [List.foldlM_nil]
    constructor
    · intro h
      cases h
    · rintro ⟨kv, hm, _⟩
      simp at hm
  | cons kv rest ih =>
    rw [List.foldlM_cons]
    cases hkk : kv.1 with
    | sym i =>
      have hstep : lengthStep env ae nv acc kv = Except.error () := by
        simp [lengthStep, hkk, lengthKey, jsGeNum]
      rw [hstep]
      exact ⟨fun _ => ⟨kv, List.mem_cons_self _ _, i, hkk⟩, fun _ => rfl⟩
    | str s0 =>
      have hstep : ∃ acc', lengthStep env ae nv acc kv = Except.ok acc' := by
        by_cases hk : kv.1 = lengthKey
        · exact ⟨addEffects env ae acc kv.2, by rw [lengthStep, if_pos hk]⟩
        · obtain ⟨b, hb⟩ := jsGeNum_str_ok s0 nv
          refine ⟨if b then addEffects env ae acc kv.2 else acc, ?_⟩
          rw [lengthStep]
          rw [if_neg hk, hkk, hb]
          rfl
      obtain ⟨acc', hstep⟩ := hstep
      rw [hstep]
      have hred : (Except.ok acc' >>=
          fun acc'' => rest.foldlM (lengthStep env ae nv) acc'') =
          rest.foldlM (lengthStep env ae nv) acc' := rfl
      rw [hred, ih]
      constructor
      · rintro ⟨kv', hm, i, hi⟩
        exact ⟨kv', List.mem_cons_of_mem _ hm, i, hi⟩
      · rintro ⟨kv', hm, i, hi⟩
        rcases List.mem_cons.mp hm with rfl | hm
        · rw [hkk] at hi
          cases hi
        · exact ⟨kv', hm, i, hi⟩

/-- Either a key has no dependency set in `dm`, or the defaulted lookup is
one of `dm`'s registered sets. -/
theorem dep_from_dm (dm : KeyToDepMap) (k : Key) :
    (alGet dm k).getD [] = [] ∨ ∃ kv ∈ dm, (alGet dm k).getD [] = kv.2 := by
  cases halg : alGet dm k with
  | none => exact Or.inl rfl
  | some d => exact Or.inr ⟨(k, d), alGet_mem halg, rfl⟩

theorem deps_of_keys (dm : KeyToDepMap) (ks : List Key) :
    ∀ d ∈ ks.map (fun k => (alGet dm k).getD []),
      d = [] ∨ ∃ kv ∈ dm, d = kv.2 := by
  intro d hd
  obtain ⟨k, _, rfl⟩ := List.mem_map.mp hd
  exact dep_from_dm dm k

/-- Every successful run of the set-building phase of `trigger` is the
first-seen deduplication of the concatenation of some of the target's
registered dependency sets, filtered by the active-effect guard. -/
theorem triggerEffects_spec (env : Nat → ReactiveEffectOptions)
    (ae : Option Nat) (target : Target) (type : TriggerOpTypes)
    (key : Option Key) (nv : Option Int) (dm : KeyToDepMap) (L : List Nat)
    (h : triggerEffects env ae target type key nv dm = Except.ok L) :
    ∃ ds : List Dep, (∀ d ∈ ds, d = [] ∨ ∃ kv ∈ dm, d = kv.2) ∧
      L = (ds.flatten.filter (triggerGuard env ae)).foldl setAdd [] := by
  by_cases ht : type = TriggerOpTypes.CLEAR
  · rw [triggerEffects.eq_def, if_pos ht] at h
    injection h with h
    subst h
    refine ⟨dm.map Prod.snd, ?_, ?_⟩
    · intro d hd
      obtain ⟨kv, hkv, rfl⟩ := List.mem_map.mp hd
      exact Or.inr ⟨kv, hkv, rfl⟩
    · rw [← foldl_addEffects_eq, List.foldl_map]
  · by_cases hlen : key = some lengthKey ∧ isArray target = true
    · rw [triggerEffects.eq_def, if_neg ht, if_pos hlen] at h
      obtain ⟨ds, hds, hL⟩ := lengthFold_ok env ae nv dm [] L h
      refine ⟨ds, fun d hd => ?_, ?_⟩
      · obtain ⟨kv, hkv, hdd⟩ := hds d hd
        exact Or.inr ⟨kv, hkv, hdd⟩
      · rw [hL, foldl_addEffects_eq]
    · rw [triggerEffects.eq_def, if_neg ht, if_neg hlen] at h
      injection h with h
      subst h
      cases type with
      | CLEAR => exact absurd rfl ht
      | SET =>
        by_cases hm : isMap target = true
        · cases key with
          | none =>
            refine ⟨[ITERATE_KEY].map (fun k => (alGet dm k).getD []),
              deps_of_keys dm _, ?_⟩
            rw [← foldl_addEffects_eq]
            simp only [hm]
            rfl
          | some k =>
            refine ⟨[k, ITERATE_KEY].map (fun k => (alGet dm k).getD []),
              deps_of_keys dm _, ?_⟩
            rw [← foldl_addEffects_eq]
            simp only [hm]
            rfl
        · have hm' : isMap target = false := by
            simpa using hm
          cases key with
          | none =>
            refine ⟨[], by simp, ?_⟩
            rw [← foldl_addEffects_eq]
            simp only [hm']
            rfl
          | some k =>
            refine ⟨[k].map (fun k => (alGet dm k).getD []),
              deps_of_keys dm _, ?_⟩
            rw [← foldl_addEffects_eq]
            simp only [hm']
            rfl
      | ADD =>
        by_cases ha : isArray target = true
        · by_cases hik : isIntegerKey key = true
          · cases key with
            | none => simp [isIntegerKey] at hik
            | some k =>
              refine ⟨[k, lengthKey].map (fun k => (alGet dm k).getD []),
                deps_of_keys dm _, ?_⟩
              rw [← foldl_addEffects_eq]
              simp only [ha, hik]
              rfl
          · have hik' : isIntegerKey key = false := by simpa using hik
            cases key with
            | none =>
              refine ⟨[], by simp, ?_⟩
              rw [← foldl_addEffects_eq]
              simp only [ha, hik']
              rfl
            | some k =>
              refine ⟨[k].map (fun k => (alGet dm k).getD []),
                deps_of_keys dm _, ?_⟩
              rw [← foldl_addEffects_eq]
              simp only [ha, hik']
              rfl
        · have ha' : isArray target = false := by simpa using ha
          by_cases hm : isMap target = true
          · cases key with
            | none =>
              refine ⟨[ITERATE_KEY, MAP_KEY_ITERATE_KEY].map
                (fun k => (alGet dm k).getD []), deps_of_keys dm _, ?_⟩
              rw [← foldl_addEffects_eq]
              simp only [ha', hm]
              rfl
            | some k =>
              refine ⟨[k, ITERATE_KEY, MAP_KEY_ITERATE_KEY].map
                (fun k => (alGet dm k).getD []), deps_of_keys dm _, ?_⟩
              rw [← foldl_addEffects_eq]
              simp only [ha', hm]
              rfl
          · have hm' : isMap target = false := by simpa using hm
            cases key with
            | none =>
              refine ⟨[ITERATE_KEY].map (fun k => (alGet dm k).getD []),
                deps_of_keys dm _, ?_⟩
              rw [← foldl_addEffects_eq]
              simp only [ha', hm']
              rfl
            | some k =>
              refine ⟨[k, ITERATE_KEY].map (fun k => (alGet dm k).getD []),
                deps_of_keys dm _, ?_⟩
              rw [← foldl_addEffects_eq]
              simp only [ha', hm']
              rfl
      | DELETE =>
        by_cases ha : isArray target = true
        · cases key with
          | none =>
            refine ⟨[], by simp, ?_⟩
            rw [← foldl_addEffects_eq]
            simp only [ha]
            rfl
          | some k =>
            refine ⟨[k].map (fun k => (alGet dm k).getD []),
              deps_of_keys dm _, ?_⟩
            rw [← foldl_addEffects_eq]
            simp only [ha]
            rfl
        · have ha' : isArray target = false := by simpa using ha
          by_cases hm : isMap target = true
          · cases key with
            | none =>
              refine ⟨[ITERATE_KEY, MAP_KEY_ITERATE_KEY].map
                (fun k => (alGet dm k).getD []), deps_of_keys dm _, ?_⟩
              rw [← foldl_addEffects_eq]
              simp only [ha', hm]
              rfl
            | some k =>
              refine ⟨[k, ITERATE_KEY, MAP_KEY_ITERATE_KEY].map
                (fun k => (alGet dm k).getD []), deps_of_keys dm _, ?_⟩
              rw [← foldl_addEffects_eq]
              simp only [ha', hm]
              rfl
          · have hm' : isMap target = false := by simpa using hm
            cases key with
            | none =>
              refine ⟨[ITERATE_KEY].map (fun k => (alGet dm k).getD []),
                deps_of_keys dm _, ?_⟩
              rw [← foldl_addEffects_eq]
              simp only [ha', hm']
              rfl
            | some k =>
              refine ⟨[k, ITERATE_KEY].map (fun k => (alGet dm k).getD []),
                deps_of_keys dm _, ?_⟩
              rw [← foldl_addEffects_eq]
              simp only [ha', hm']
              rfl

theorem triggerEffects_nodup (env : Nat → ReactiveEffectOptions)
    (ae : Option Nat) (target : Target) (type : TriggerOpTypes)
    (key : Option Key) (nv : Option Int) (dm : KeyToDepMap) (L : List Nat)
    (h : triggerEffects env ae target type key nv dm = Except.ok L) :
    L.Nodup := by
  obtain ⟨ds, -, hL⟩ := triggerEffects_spec env ae target type key nv dm L h
  rw [hL]
  exact nodup_foldl_setAdd _ List.nodup_nil

theorem triggerEffects_guard (env : Nat → ReactiveEffectOptions)
    (ae : Option Nat) (target : Target) (type : TriggerOpTypes)
    (key : Option Key) (nv : Option Int) (dm : KeyToDepMap) (L : List Nat)
    (h : triggerEffects env ae target type key nv dm = Except.ok L) :
    ∀ x ∈ L, triggerGuard env ae x = true := by
  obtain ⟨ds, -, hL⟩ := triggerEffects_spec env ae target type key nv dm L h
  intro x hx
  rw [hL, mem_foldl_setAdd] at hx
  rcases hx with hx | hx
  · simp at hx
  · exact (List.mem_filter.mp hx).2

theorem triggerEffects_subset (env : Nat → ReactiveEffectOptions)
    (ae : Option Nat) (target : Target) (type : TriggerOpTypes)
    (key : Option Key) (nv : Option Int) (dm : KeyToDepMap) (L : List Nat)
    (h : triggerEffects env ae target type key nv dm = Except.ok L) :
    ∀ x ∈ L, ∃ kv ∈ dm, x ∈ kv.2 := by
  obtain ⟨ds, hds, hL⟩ := triggerEffects_spec env ae target type key nv dm L h
  intro x hx
  rw [hL, mem_foldl_setAdd] at hx
  rcases hx with hx | hx
  · simp at hx
  · obtain ⟨d, hd, hxd⟩ := List.mem_flatten.mp (List.mem_filter.mp hx).1
    rcases hds d hd with rfl | ⟨kv, hkv, rfl⟩
    · simp at hxd
    · exact ⟨kv, hkv, hxd⟩

/-! Path lemmas for `track`. -/

theorem track_noop_none (dev : Bool) (env : Nat → ReactiveEffectOptions)
    (target : Target) (type : TrackOpTypes) (key : Key) (s : State)
    (hae : s.activeEffect = none) :
    track dev env target type key s = (s, []) := by
  simp [track, hae]

theorem track_noop_paused (dev : Bool) (env : Nat → ReactiveEffectOptions)
    (target : Target) (type : TrackOpTypes) (key : Key) (s : State) (ae : Nat)
    (hae : s.activeEffect = some ae) (hst : s.shouldTrack = false) :
    track dev env target type key s = (s, []) := by
  simp [track, hae, hst]

theorem track_noop_mem (dev : Bool) (env : Nat → ReactiveEffectOptions)
    (target : Target) (type : TrackOpTypes) (key : Key) (s : State) (ae : Nat)
    (hae : s.activeEffect = some ae) (hst : s.shouldTrack = true)
    (hmem : ae ∈ s.depAt target.id key) :
    track dev env target type key s = (s, []) := by
  have hmem' : ae ∈ (alGet ((alGet s.targetMap target.id).getD []) key).getD [] :=
    hmem
  simp [track, hae, hst, hmem']

theorem track_eq_of_new (dev : Bool) (env : Nat → ReactiveEffectOptions)
    (target : Target) (type : TrackOpTypes) (key : Key) (s : State) (ae : Nat)
    (hae : s.activeEffect = some ae) (hst : s.shouldTrack = true)
    (hmem : ae ∉ s.depAt target.id key) :
    track dev env target type key s =
      ({ s with
          targetMap := alSet s.targetMap target.id
            (alSet ((alGet s.targetMap target.id).getD []) key
              (s.depAt target.id key ++ [ae])),
          effs := alSet s.effs ae
            { s.eff ae with deps := (s.eff ae).deps ++ [(target.id, key)] } },
       if dev && (env ae).hasOnTrack
       then [Event.onTrack ae target.id type key] else []) := by
  have hmem' : ae ∉ (alGet ((alGet s.targetMap target.id).getD []) key).getD [] :=
    hmem
  simp [track, hae, hst, hmem']
  rfl

theorem track_depAt_self (dev : Bool) (env : Nat → ReactiveEffectOptions)
    (target : Target) (type : TrackOpTypes) (key : Key) (s : State) (ae : Nat)
    (hae : s.activeEffect = some ae) (hst : s.shouldTrack = true)
    (hmem : ae ∉ s.depAt target.id key) :
    (track dev env target type key s).1.depAt target.id key =
      s.depAt target.id key ++ [ae] := by
  rw [track_eq_of_new dev env target type key s ae hae hst hmem]
  simp [State.depAt, tmAt, alGet_alSet_self]

theorem track_depAt_other (dev : Bool) (env : Nat → ReactiveEffectOptions)
    (target : Target) (type : TrackOpTypes) (key : Key) (s : State) (ae : Nat)
    (hae : s.activeEffect = some ae) (hst : s.shouldTrack = true)
    (hmem : ae ∉ s.depAt target.id key) (t' : Nat) (k' : Key)
    (hne : (t', k') ≠ (target.id, key)) :
    (track dev env target type key s).1.depAt t' k' = s.depAt t' k' := by
  rw [track_eq_of_new dev env target type key s ae hae hst hmem]
  by_cases ht : t' = target.id
  · subst ht
    have hk : k' ≠ key := fun hc => hne (by rw [hc])
    simp [State.depAt, tmAt, alGet_alSet_self, alGet_alSet_ne _ _ _ _ hk]
  · simp [State.depAt, tmAt, alGet_alSet_ne _ _ _ _ ht]

theorem track_depAt_mono (dev : Bool) (env : Nat → ReactiveEffectOptions)
    (target : Target) (type : TrackOpTypes) (key : Key) (s : State) (ae : Nat)
    (hae : s.activeEffect = some ae) (hst : s.shouldTrack = true)
    (hmem : ae ∉ s.depAt target.id key) (t' : Nat) (k' : Key) (x : Nat)
    (hx : x ∈ s.depAt t' k') :
    x ∈ (track dev env target type key s).1.depAt t' k' := by
  by_cases h : (t', k') = (target.id, key)
  · have h1 : t' = target.id := congrArg Prod.fst h
    have h2 : k' = key := congrArg Prod.snd h
    subst h1
    rw [h2] at hx ⊢
    rw [track_depAt_self dev env target type key s ae hae hst hmem]
    exact List.mem_append_left _ hx
  · rw [track_depAt_other dev env target type key s ae hae hst hmem t' k' h]
    exact hx

theorem track_eff_self (dev : Bool) (env : Nat → ReactiveEffectOptions)
    (target : Target) (type : TrackOpTypes) (key : Key) (s : State) (ae : Nat)
    (hae : s.activeEffect = some ae) (hst : s.shouldTrack = true)
    (hmem : ae ∉ s.depAt target.id key) :
    (track dev env target type key s).1.eff ae =
      { s.eff ae with deps := (s.eff ae).deps ++ [(target.id, key)] } := by
  rw [track_eq_of_new dev env target type key s ae hae hst hmem]
  simp [State.eff, alGet_alSet_self]

theorem track_eff_other (dev : Bool) (env : Nat → ReactiveEffectOptions)
    (target : Target) (type : TrackOpTypes) (key : Key) (s : State) (ae : Nat)
    (hae : s.activeEffect = some ae) (hst : s.shouldTrack = true)
    (hmem : ae ∉ s.depAt target.id key) (e' : Nat) (hne : e' ≠ ae) :
    (track dev env target type key s).1.eff e' = s.eff e' := by
  rw [track_eq_of_new dev env target type key s ae hae hst hmem]
  simp [State.eff, alGet_alSet_ne _ _ _ _ hne]

theorem track_ctx (dev : Bool) (env : Nat → ReactiveEffectOptions)
    (target : Target) (type : TrackOpTypes) (key : Key) (s : State) :
    (track dev env target type key s).1.effectStack = s.effectStack ∧
    (track dev env target type key s).1.activeEffect = s.activeEffect ∧
    (track dev env target type key s).1.shouldTrack = s.shouldTrack ∧
    (track dev env target type key s).1.trackStack = s.trackStack ∧
    (track dev env target type key s).1.uid = s.uid := by
  cases hae : s.activeEffect with
  | none =>
    rw [track_noop_none dev env target type key s hae]
    exact ⟨rfl, hae, rfl, rfl, rfl⟩
  | some ae =>
    cases hst : s.shouldTrack with
    | false =>
      rw [track_noop_paused dev env target type key s ae hae hst]
      exact ⟨rfl, hae, hst, rfl, rfl⟩
    | true =>
      by_cases hmem : ae ∈ s.depAt target.id key
      · rw [track_noop_mem dev env target type key s ae hae hst hmem]
        exact ⟨rfl, hae, hst, rfl, rfl⟩
      · rw [track_eq_of_new dev env target type key s ae hae hst hmem]
        exact ⟨rfl, hae, hst, rfl, rfl⟩

/-- C2: `track(object, accessKind, key)` is a no-op whenever tracking is
disabled or there is no active effect; otherwise it lazily creates the
per-key dependency set on first use, and only when the active effect is
not already a member does it add the effect to the set, symmetrically
append that set to the effect's `deps` list, and fire the `onTrack`
callback (in a dev build, when configured) — each (effect, dependency)
edge is established, and `onTrack` fired, exactly once; a re-read of an
already-tracked key adds and fires nothing (final conjunct: running
`track` again on the updated state is a no-op). -/
theorem track_contract (env : Nat → ReactiveEffectOptions) (target : Target)
    (type : TrackOpTypes) (key : Key) (s : State) :
    ((s.shouldTrack = false ∨ s.activeEffect = none) →
       track true env target type key s = (s, [])) ∧
    (∀ ae, s.activeEffect = some ae → s.shouldTrack = true →
      (ae ∈ s.depAt target.id key → track true env target type key s = (s, [])) ∧
      (ae ∉ s.depAt target.id key →
        (track true env target type key s).2 =
          (if (env ae).hasOnTrack then [Event.onTrack ae target.id type key]
           else []) ∧
        (track true env target type key s).1.depAt target.id key =
          s.depAt target.id key ++ [ae] ∧
        ((track true env target type key s).1.eff ae).deps =
          (s.eff ae).deps ++ [(target.id, key)] ∧
        (∀ e', e' ≠ ae →
          (track true env target type key s).1.eff e' = s.eff e') ∧
        (∀ t' k', (t', k') ≠ (target.id, key) →
          (track true env target type key s).1.depAt t' k' = s.depAt t' k') ∧
        track true env target type key (track true env target type key s).1 =
          ((track true env target type key s).1, []))) := by
  constructor
  · rintro (hst | hae)
    · cases hone : s.activeEffect with
      | none => exact track_noop_none true env target type key s hone
      | some ae => exact track_noop_paused true env target type key s ae hone hst
    · exact track_noop_none true env target type key s hae
  · intro ae hae hst
    constructor
    · intro hmem
      exact track_noop_mem true env target type key s ae hae hst hmem
    · intro hmem
      refine ⟨?_, track_depAt_self true env target type key s ae hae hst hmem,
        ?_,
        fun e' h => track_eff_other true env target type key s ae hae hst hmem e' h,
        fun t' k' h =>
          track_depAt_other true env target type key s ae hae hst hmem t' k' h,
        ?_⟩
      · rw [track_eq_of_new true env target type key s ae hae hst hmem]
        simp
      · rw [track_eff_self true env target type key s ae hae hst hmem]
      · have hae' : (track true env target type key s).1.activeEffect = some ae := by
          rw [(track_ctx true env target type key s).2.1, hae]
        have hst' : (track true env target type key s).1.shouldTrack = true := by
          rw [(track_ctx true env target type key s).2.2.1, hst]
        have hmem' : ae ∈ (track true env target type key s).1.depAt target.id key := by
          rw [track_depAt_self true env target type key s ae hae hst hmem]
          exact List.mem_append_right _ (List.mem_singleton.mpr rfl)
        exact track_noop_mem true env target type key
          (track true env target type key s).1 ae hae' hst' hmem'

/-- Witness for `track_contract`: inside a run of effect `0`, a first read
of `(tPlain, keyA)` adds the effect to that key's dependency set, and a
second `track` on the resulting state is a no-op. -/
theorem track_contract_witness :
    (track true env0 tPlain TrackOpTypes.GET keyA sAct).1.depAt 0 keyA =
      sAct.depAt 0 keyA ++ [0] ∧
    track true env0 tPlain TrackOpTypes.GET keyA sTracked = (sTracked, []) := by
  have h := (track_contract env0 tPlain TrackOpTypes.GET keyA sAct).2 0 rfl rfl
  exact ⟨(h.2 (by decide)).2.1, (h.2 (by decide)).2.2.2.2.2⟩

/-- C3: invoking an active effect that is already on the effect stack is a
no-op returning `undefined`; a non-no-op run first cleans up — the effect
is removed from every dependency set in its `deps` list and the list is
cleared — before the raw computation executes on the prepared state
(`runPrepare` = cleanup, then tracking enabled, stack push, `activeEffect`
assignment), so the subscriptions left after the run are exactly those the
latest execution re-established. -/
theorem run_guard_and_cleanup {ε α : Type} (env : Nat → ReactiveEffectOptions)
    (fn : State → State × Except ε α) (e : Nat) (s : State) :
    ((s.eff e).active = true ∧ e ∈ s.effectStack →
       runEffect env fn e s = (s, Except.ok none)) ∧
    ((s.eff e).active = true ∧ e ∉ s.effectStack →
       runEffect env fn e s =
         (runFinalize (fn (runPrepare s e)).1, (fn (runPrepare s e)).2.map some) ∧
       (∀ tk ∈ (s.eff e).deps, e ∉ (cleanup s e).depAt tk.1 tk.2) ∧
       ((cleanup s e).eff e).deps = []) := by
  constructor
  · rintro ⟨hact, hstk⟩
    exact runEffect_onstack env fn e s hact hstk
  · rintro ⟨hact, hstk⟩
    refine ⟨runEffect_active env fn e s hact hstk, cleanup_removes s e, ?_⟩
    rw [cleanup_eff_self]

/-- Witness for `run_guard_and_cleanup`: effect `0` on the stack of `sAct`
runs as a no-op; on `s0` (not on the stack) the run decomposes as
prepare / compute / finalize. -/
theorem run_guard_and_cleanup_witness :
    runEffect env0 fnConst7 0 sAct = (sAct, Except.ok none) ∧
    runEffect env0 fnConst7 0 s0 =
      (runFinalize (fnConst7 (runPrepare s0 0)).1,
       (fnConst7 (runPrepare s0 0)).2.map some) :=
  ⟨(run_guard_and_cleanup env0 fnConst7 0 sAct).1 ⟨by decide, by decide⟩,
   ((run_guard_and_cleanup env0 fnConst7 0 s0).2 ⟨by decide, by decide⟩).1⟩

/-- C5: if the wrapped computation raises during a non-no-op run, the
error propagates to the caller while the `finally` phase still executes:
the resulting state is `runFinalize` of the state the computation left,
exactly as for a computation that completes normally with the same state
effects. -/
theorem run_error_propagation {ε α : Type} (env : Nat → ReactiveEffectOptions)
    (fn fn' : State → State × Except ε α) (e : Nat) (s : State) (err : ε)
    (v : α) (hact : (s.eff e).active = true) (hstk : e ∉ s.effectStack)
    (hsame : (fn (runPrepare s e)).1 = (fn' (runPrepare s e)).1)
    (herr : (fn (runPrepare s e)).2 = Except.error err)
    (hok : (fn' (runPrepare s e)).2 = Except.ok v) :
    (runEffect env fn e s).2 = Except.error err ∧
    (runEffect env fn e s).1 = runFinalize (fn (runPrepare s e)).1 ∧
    (runEffect env fn e s).1 = (runEffect env fn' e s).1 ∧
    (runEffect env fn' e s).2 = Except.ok (some v) := by
  rw [runEffect_active env fn e s hact hstk,
    runEffect_active env fn' e s hact hstk]
  exact ⟨by rw [herr]; rfl, rfl, by rw [hsame], by rw [hok]; rfl⟩

/-- Witness for `run_error_propagation`: a throwing computation and a
normally-completing one with the same (absent) state effects leave the
Tracking Context in the same state; the error code `3` reaches the
caller. -/
theorem run_error_propagation_witness :
    (runEffect env0 fnThrow3 0 s0).2 = Except.error 3 ∧
    (runEffect env0 fnThrow3 0 s0).1 = runFinalize (fnThrow3 (runPrepare s0 0)).1 ∧
    (runEffect env0 fnThrow3 0 s0).1 = (runEffect env0 fnOk9 0 s0).1 ∧
    (runEffect env0 fnOk9 0 s0).2 = Except.ok (some 9) :=
  run_error_propagation env0 fnThrow3 fnOk9 0 s0 3 9 (by decide) (by decide)
    rfl rfl rfl

/-- C8: invoking a stopped (inactive) effect returns `undefined` when a
scheduler is configured, and otherwise returns exactly the raw
computation's result applied to the untouched state — no stack push, no
`activeEffect` assignment, no cleanup or rebuild of `deps` (the wrapper
adds nothing beyond `fn` itself). -/
theorem run_inactive_contract {ε α : Type} (env : Nat → ReactiveEffectOptions)
    (fn : State → State × Except ε α) (e : Nat) (s : State)
    (hact : (s.eff e).active = false) :
    ((env e).hasScheduler = true → runEffect env fn e s = (s, Except.ok none)) ∧
    ((env e).hasScheduler = false →
       runEffect env fn e s = ((fn s).1, (fn s).2.map some)) :=
  ⟨fun hs => runEffect_inactive_sched env fn e s hact hs,
   fun hs => runEffect_inactive_raw env fn e s hact hs⟩

/-- Witness for `run_inactive_contract`: a stopped effect with a scheduler
returns `undefined` without running; one without a scheduler returns the
raw computation's result on the unchanged state. -/
theorem run_inactive_contract_witness :
    runEffect envSched2 fnConst7 2 sStopped2 = (sStopped2, Except.ok none) ∧
    runEffect env0 fnConst7 0 sStopped =
      ((fnConst7 sStopped).1, (fnConst7 sStopped).2.map some) :=
  ⟨(run_inactive_contract envSched2 fnConst7 2 sStopped2 (by decide)).1 (by decide),
   (run_inactive_contract env0 fnConst7 0 sStopped (by decide)).2 (by decide)⟩

theorem trigger_of_untracked (dev : Bool) (env : Nat → ReactiveEffectOptions)
    (target : Target) (type : TriggerOpTypes) (key : Option Key)
    (nv : Option Int) (s : State)
    (h : alGet s.targetMap target.id = none) :
    trigger dev env target type key nv s = Except.ok [] := by
  simp [trigger, h]

theorem trigger_of_tracked (dev : Bool) (env : Nat → ReactiveEffectOptions)
    (target : Target) (type : TriggerOpTypes) (key : Option Key)
    (nv : Option Int) (s : State) (dm : KeyToDepMap)
    (h : alGet s.targetMap target.id = some dm) :
    trigger dev env target type key nv s =
      (triggerEffects env s.activeEffect target type key nv dm).map
        (fun l => (l.map (dispatchOne dev env target type key)).flatten) := by
  simp [trigger, h]

/-- C1: for every successful `trigger` call, the qualifying dependency
sets are merged into one deduplicated collection — the first-seen
deduplication (`foldl setAdd []`) of a concatenation of registered sets,
filtered by the guard that excludes the currently active effect unless its
`allowRecurse` flag is set — before any effect is processed; the emitted
dispatch sequence then processes each collected effect exactly once, in
the merge's order, firing `onTrigger` when configured (dev build) and then
invoking the scheduler with the effect when one is configured, otherwise
running the effect synchronously. -/
theorem trigger_merge_and_dispatch (dev : Bool)
    (env : Nat → ReactiveEffectOptions) (target : Target)
    (type : TriggerOpTypes) (key : Option Key) (nv : Option Int) (s : State)
    (evs : List Event)
    (h : trigger dev env target type key nv s = Except.ok evs) :
    ∃ L : List Nat,
      L.Nodup ∧
      (∀ e ∈ L, some e ≠ s.activeEffect ∨ (env e).allowRecurse = true) ∧
      (∃ ds : List Dep,
        (∀ d ∈ ds, d = [] ∨ ∃ dm kv, alGet s.targetMap target.id = some dm ∧
          kv ∈ dm ∧ d = kv.2) ∧
        L = (ds.flatten.filter (triggerGuard env s.activeEffect)).foldl setAdd []) ∧
      evs = (L.map (fun e =>
        (if dev && (env e).hasOnTrigger
         then [Event.onTrigger e target.id type key] else []) ++
        (if (env e).hasScheduler then [Event.scheduled e]
         else [Event.ranEffect e]))).flatten := by
  cases halg : alGet s.targetMap target.id with
  | none =>
    rw [trigger_of_untracked dev env target type key nv s halg] at h
    injection h with h
    exact ⟨[], List.nodup_nil, by simp, ⟨[], by simp, rfl⟩, by rw [← h]; rfl⟩
  | some dm =>
    rw [trigger_of_tracked dev env target type key nv s dm halg] at h
    cases hte : triggerEffects env s.activeEffect target type key nv dm with
    | error u => rw [hte] at h; cases h
    | ok L =>
      rw [hte] at h
      injection h with h
      refine ⟨L, triggerEffects_nodup env s.activeEffect target type key nv dm L hte,
        ?_, ?_, ?_⟩
      · intro e he
        exact triggerGuard_iff.mp
          (triggerEffects_guard env s.activeEffect target type key nv dm L hte e he)
      · obtain ⟨ds, hds, hL⟩ :=
          triggerEffects_spec env s.activeEffect target type key nv dm L hte
        refine ⟨ds, ?_, hL⟩
        intro d hd
        rcases hds d hd with hd0 | ⟨kv, hkv, hdd⟩
        · exact Or.inl hd0
        · exact Or.inr ⟨dm, kv, rfl, hkv, hdd⟩
      · rw [← h]
        rfl

/-- Witness for `trigger_merge_and_dispatch`: clearing a target whose two
dependency sets overlap (effect `2` subscribed under both keys) yields a
dispatch sequence that runs effects `1`, `2`, `3` once each, in first-seen
order; with a scheduler on effect `2` the middle dispatch is a scheduler
invocation instead. -/
theorem trigger_merge_and_dispatch_witness :
    (∃ L : List Nat,
      L.Nodup ∧
      (∀ e ∈ L, some e ≠ sOverlap.activeEffect ∨ (env0 e).allowRecurse = true) ∧
      (∃ ds : List Dep,
        (∀ d ∈ ds, d = [] ∨ ∃ dm kv, alGet sOverlap.targetMap tPlain.id = some dm ∧
          kv ∈ dm ∧ d = kv.2) ∧
        L = (ds.flatten.filter (triggerGuard env0 sOverlap.activeEffect)).foldl
              setAdd []) ∧
      [Event.ranEffect 1, Event.ranEffect 2, Event.ranEffect 3] =
        (L.map (fun e =>
          (if false && (env0 e).hasOnTrigger
           then [Event.onTrigger e tPlain.id TriggerOpTypes.CLEAR none] else []) ++
          (if (env0 e).hasScheduler then [Event.scheduled e]
           else [Event.ranEffect e]))).flatten) ∧
    trigger false envSched2 tPlain TriggerOpTypes.CLEAR none none sOverlap =
      Except.ok [Event.ranEffect 1, Event.scheduled 2, Event.ranEffect 3] :=
  ⟨trigger_merge_and_dispatch false env0 tPlain TriggerOpTypes.CLEAR none none
      sOverlap [Event.ranEffect 1, Event.ranEffect 2, Event.ranEffect 3]
      (by decide),
   by decide⟩

/-- C4: on the default `trigger` path (key not an array's `'length'`, kind
Set / Add / Delete), the merged collection contains exactly the guarded
effects of: the defined key's dependency set; plus, for Add to a
non-array, the "keys iterated" marker's set (and the "map-keys iterated"
marker's set when the target is map-like); for Add to an array with a
valid integer-index key, the `'length'` set; for Delete from a non-array,
the same iterate markers as Add; and for Set on a map-like target, the
"keys iterated" marker's set. -/
theorem trigger_default_table (env : Nat → ReactiveEffectOptions)
    (ae : Option Nat) (target : Target) (type : TriggerOpTypes)
    (key : Option Key) (nv : Option Int) (dm : KeyToDepMap)
    (h1 : type ≠ TriggerOpTypes.CLEAR)
    (h2 : ¬(key = some lengthKey ∧ isArray target = true)) :
    ∃ L, triggerEffects env ae target type key nv dm = Except.ok L ∧
      ∀ x, x ∈ L ↔ (triggerGuard env ae x = true ∧
        ((∃ k, key = some k ∧ x ∈ (alGet dm k).getD []) ∨
         (type = TriggerOpTypes.ADD ∧ isArray target = false ∧
           (x ∈ (alGet dm ITERATE_KEY).getD [] ∨
            (isMap target = true ∧ x ∈ (alGet dm MAP_KEY_ITERATE_KEY).getD []))) ∨
         (type = TriggerOpTypes.ADD ∧ isArray target = true ∧
           isIntegerKey key = true ∧ x ∈ (alGet dm lengthKey).getD []) ∨
         (type = TriggerOpTypes.DELETE ∧ isArray target = false ∧
           (x ∈ (alGet dm ITERATE_KEY).getD [] ∨
            (isMap target = true ∧ x ∈ (alGet dm MAP_KEY_ITERATE_KEY).getD []))) ∨
         (type = TriggerOpTypes.SET ∧ isMap target = true ∧
           x ∈ (alGet dm ITERATE_KEY).getD []))) := by
  refine ⟨_, by rw [triggerEffects.eq_def, if_neg h1, if_neg h2], ?_⟩
  intro x
  cases type with
  | CLEAR => exact absurd rfl h1
  | SET =>
    by_cases hm : isMap target = true
    · cases key with
      | none => simp [hm, mem_addEffects]; tauto
      | some k => simp [hm, mem_addEffects]; tauto
    · have hm' : isMap target = false := by simpa using hm
      cases key with
      | none => simp [hm', mem_addEffects]
      | some k => simp [hm', mem_addEffects]; tauto
  | ADD =>
    by_cases ha : isArray target = true
    · by_cases hik : isIntegerKey key = true
      · cases key with
        | none => simp [isIntegerKey] at hik
        | some k => simp [ha, hik, mem_addEffects]; tauto
      · have hik' : isIntegerKey key = false := by simpa using hik
        cases key with
        | none => simp [ha, hik', mem_addEffects]
        | some k => simp [ha, hik' , mem_addEffects]; tauto
    · have ha' : isArray target = false := by simpa using ha
      by_cases hm : isMap target = true
      · cases key with
        | none => simp [ha', hm, mem_addEffects]; tauto
        | some k => simp [ha', hm, mem_addEffects]; tauto
      · have hm' : isMap target = false := by simpa using hm
        cases key with
        | none => simp [ha', hm', mem_addEffects]; tauto
        | some k => simp [ha', hm', mem_addEffects]; tauto
  | DELETE =>
    by_cases ha : isArray target = true
    · cases key with
      | none => simp [ha, mem_addEffects]
      | some k => simp [ha, mem_addEffects]; tauto
    · have ha' : isArray target = false := by simpa using ha
      by_cases hm : isMap target = true
      · cases key with
        | none => simp [ha', hm, mem_addEffects]; tauto
        | some k => simp [ha', hm, mem_addEffects]; tauto
      · have hm' : isMap target = false := by simpa using hm
        cases key with
        | none => simp [ha', hm', mem_addEffects]; tauto
        | some k => simp [ha', hm', mem_addEffects]; tauto

/-- Witness for `trigger_default_table`: an Add of key `'a'` on a plain
target whose registry holds a set for `'a'` and one for the iteration
marker. -/
theorem trigger_default_table_witness :
    ∃ L, triggerEffects env0 none tPlain TriggerOpTypes.ADD (some keyA) none
        [(keyA, [1]), (ITERATE_KEY, [4])] = Except.ok L ∧
      ∀ x, x ∈ L ↔ (triggerGuard env0 none x = true ∧
        ((∃ k, (some keyA : Option Key) = some k ∧
            x ∈ (alGet [(keyA, [1]), (ITERATE_KEY, [4])] k).getD []) ∨
         (TriggerOpTypes.ADD = TriggerOpTypes.ADD ∧ isArray tPlain = false ∧
           (x ∈ (alGet [(keyA, [1]), (ITERATE_KEY, [4])] ITERATE_KEY).getD [] ∨
            (isMap tPlain = true ∧
             x ∈ (alGet [(keyA, [1]), (ITERATE_KEY, [4])]
                    MAP_KEY_ITERATE_KEY).getD []))) ∨
         (TriggerOpTypes.ADD = TriggerOpTypes.ADD ∧ isArray tPlain = true ∧
           isIntegerKey (some keyA) = true ∧
           x ∈ (alGet [(keyA, [1]), (ITERATE_KEY, [4])] lengthKey).getD []) ∨
         (TriggerOpTypes.ADD = TriggerOpTypes.DELETE ∧ isArray tPlain = false ∧
           (x ∈ (alGet [(keyA, [1]), (ITERATE_KEY, [4])] ITERATE_KEY).getD [] ∨
            (isMap tPlain = true ∧
             x ∈ (alGet [(keyA, [1]), (ITERATE_KEY, [4])]
                    MAP_KEY_ITERATE_KEY).getD []))) ∨
         (TriggerOpTypes.ADD = TriggerOpTypes.SET ∧ isMap tPlain = true ∧
           x ∈ (alGet [(keyA, [1]), (ITERATE_KEY, [4])] ITERATE_KEY).getD []))) :=
  trigger_default_table env0 none tPlain TriggerOpTypes.ADD (some keyA) none
    [(keyA, [1]), (ITERATE_KEY, [4])] (by decide) (by decide)

/-- Counterexample to C9 as stated: `trigger` can raise.  On an array
target whose registry holds a dependency set under a symbol key (the
iteration marker), `trigger` with key `'length'` hits the comparison
`key >= newValue`, which throws a `TypeError` on a symbol key — so the
call errors instead of completing, and nothing is dispatched. -/
theorem trigger_throws_on_symbol_key :
    trigger false env0 tArr TriggerOpTypes.SET (some lengthKey) (some 0)
      sSymDep = Except.error () := by
  decide

/-- C9 amended: `trigger` raises exactly when it takes the array-length
branch (non-Clear kind, key `'length'`, array target, tracked) and the
target's dependency map contains a symbol-keyed entry, which the branch's
`key >= newValue` coercion cannot convert; on every other input `trigger`
completes normally (and the other core operations are total functions of
the state).  Errors raised inside wrapped computations are outside
`trigger` and still propagate through `runEffect`. -/
theorem trigger_error_characterization (dev : Bool)
    (env : Nat → ReactiveEffectOptions) (target : Target)
    (type : TriggerOpTypes) (key : Option Key) (nv : Option Int) (s : State) :
    trigger dev env target type key nv s = Except.error () ↔
      (type ≠ TriggerOpTypes.CLEAR ∧ key = some lengthKey ∧
       isArray target = true ∧
       ∃ dm, alGet s.targetMap target.id = some dm ∧
         ∃ kv ∈ dm, ∃ i, kv.1 = Key.sym i) := by
  cases halg : alGet s.targetMap target.id with
  | none =>
    rw [trigger_of_untracked dev env target type key nv s halg]
    constructor
    · intro h
      cases h
    · rintro ⟨-, -, -, dm, hdm, -⟩
      cases hdm
  | some dm =>
    rw [trigger_of_tracked dev env target type key nv s dm halg]
    have hmap : ((triggerEffects env s.activeEffect target type key nv dm).map
        (fun l => (l.map (dispatchOne dev env target type key)).flatten) =
          Except.error ()) ↔
        triggerEffects env s.activeEffect target type key nv dm =
          Except.error () := by
      cases hte : triggerEffects env s.activeEffect target type key nv dm with
      | error u =>
        cases u
        simp [Except.map]
      | ok L =>
        simp [Except.map]
    rw [hmap]
    by_cases ht : type = TriggerOpTypes.CLEAR
    · rw [triggerEffects.eq_def, if_pos ht]
      constructor
      · intro h
        cases h
      · rintro ⟨hne, -⟩
        exact absurd ht hne
    · by_cases hlen : key = some lengthKey ∧ isArray target = true
      · rw [triggerEffects.eq_def, if_neg ht, if_pos hlen]
        rw [lengthFold_error env s.activeEffect nv dm []]
        constructor
        · intro hsym
          exact ⟨ht, hlen.1, hlen.2, dm, rfl, hsym⟩
        · rintro ⟨-, -, -, dm', hdm', hsym⟩
          injection hdm' with hdm'
          rw [hdm']
          exact hsym
      · rw [triggerEffects.eq_def, if_neg ht, if_neg hlen]
        constructor
        · intro h
          cases h
        · rintro ⟨hne, hkey, harr, -⟩
          exact absurd ⟨hkey, harr⟩ hlen

/-! Lemmas on how the remaining operations affect the `active` flags. -/

theorem eff_of_effs_eq (s1 s2 : State) (x : Nat) (h : s1.effs = s2.effs) :
    s1.eff x = s2.eff x := by
  simp [State.eff, h]

theorem resetTracking_effs (s : State) : (resetTracking s).effs = s.effs := by
  cases h : s.trackStack.getLast? <;> simp [resetTracking, h]

theorem runFinalize_effs (s : State) : (runFinalize s).effs = s.effs := by
  rw [runFinalize]
  exact resetTracking_effs _

theorem runPrepare_eff (s : State) (e x : Nat) :
    (runPrepare s e).eff x = (cleanup s e).eff x := rfl

theorem track_active_eq (dev : Bool) (env : Nat → ReactiveEffectOptions)
    (target : Target) (type : TrackOpTypes) (key : Key) (s : State) (x : Nat) :
    ((track dev env target type key s).1.eff x).active = (s.eff x).active := by
  cases hae : s.activeEffect with
  | none => rw [track_noop_none dev env target type key s hae]
  | some ae =>
    cases hst : s.shouldTrack with
    | false => rw [track_noop_paused dev env target type key s ae hae hst]
    | true =>
      by_cases hmem : ae ∈ s.depAt target.id key
      · rw [track_noop_mem dev env target type key s ae hae hst hmem]
      · by_cases hx : x = ae
        · subst hx
          rw [track_eff_self dev env target type key s x hae hst hmem]
        · rw [track_eff_other dev env target type key s ae hae hst hmem x hx]

theorem cleanup_active_eq (s : State) (e x : Nat) :
    ((cleanup s e).eff x).active = (s.eff x).active := by
  by_cases hx : x = e
  · subst hx
    rw [cleanup_eff_self]
  · rw [cleanup_eff_ne s e x hx]

theorem stop_eq_of_active (env : Nat → ReactiveEffectOptions) (s : State)
    (e : Nat) (h : (s.eff e).active = true) :
    stop env s e =
      ({ cleanup s e with
          effs := alSet (cleanup s e).effs e ⟨false, ((cleanup s e).eff e).deps⟩ },
       if (env e).hasOnStop then [Event.onStop e] else []) := by
  rw [stop, if_pos h]

theorem stop_eq_of_inactive (env : Nat → ReactiveEffectOptions) (s : State)
    (e : Nat) (h : (s.eff e).active = false) :
    stop env s e = (s, []) := by
  rw [stop, if_neg (by simp [h])]

theorem stop_active_flag (env : Nat → ReactiveEffectOptions) (s : State)
    (e e' : Nat) (h : (s.eff e).active = false) :
    ((stop env s e').1.eff e).active = false := by
  by_cases hact : (s.eff e').active = true
  · rw [stop_eq_of_active env s e' hact]
    by_cases hx : e = e'
    · subst hx
      simp [State.eff, alGet_alSet_self]
    · have h2 : (State.eff
          { cleanup s e' with
              effs := alSet (cleanup s e').effs e'
                ⟨false, ((cleanup s e').eff e').deps⟩ } e) =
          (cleanup s e').eff e := by
        simp [State.eff, alGet_alSet_ne _ _ _ _ hx]
      rw [h2, cleanup_active_eq]
      exact h
  · have hact' : (s.eff e').active = false := by simpa using hact
    rw [stop_eq_of_inactive env s e' hact']
    exact h

theorem runEffect_active_flag {ε α : Type} (env : Nat → ReactiveEffectOptions)
    (fn : State → State × Except ε α) (e' : Nat) (s : State) (e : Nat)
    (hfn : ∀ s', ((fn s').1.eff e).active = (s'.eff e).active) :
    ((runEffect env fn e' s).1.eff e).active = (s.eff e).active := by
  by_cases hact : (s.eff e').active = true
  · by_cases hstk : e' ∈ s.effectStack
    · rw [runEffect_onstack env fn e' s hact hstk]
    · rw [runEffect_active env fn e' s hact hstk]
      have h1 : ((runFinalize (fn (runPrepare s e')).1, 
          ((fn (runPrepare s e')).2.map some)).1.eff e) =
          ((fn (runPrepare s e')).1.eff e) :=
        eff_of_effs_eq _ _ e (runFinalize_effs _)
      rw [h1, hfn, runPrepare_eff, cleanup_active_eq]
  · have hact' : (s.eff e').active = false := by simpa using hact
    by_cases hs : (env e').hasScheduler = true
    · rw [runEffect_inactive_sched env fn e' s hact' hs]
    · have hs' : (env e').hasScheduler = false := by simpa using hs
      rw [runEffect_inactive_raw env fn e' s hact' hs']
      exact hfn s

theorem mem_dispatchOne (dev : Bool) (env : Nat → ReactiveEffectOptions)
    (target : Target) (type : TriggerOpTypes) (key : Option Key) (e' : Nat)
    (ev : Event) (h : ev ∈ dispatchOne dev env target type key e') :
    ev = Event.onTrigger e' target.id type key ∨ ev = Event.scheduled e' ∨
      ev = Event.ranEffect e' := by
  rw [dispatchOne] at h
  rcases List.mem_append.mp h with h | h
  · by_cases hc : (dev && (env e').hasOnTrigger) = true
    · rw [if_pos hc] at h
      exact Or.inl (by simpa using h)
    · rw [if_neg hc] at h
      simp at h
  · by_cases hc : (env e').hasScheduler = true
    · rw [if_pos hc] at h
      exact Or.inr (Or.inl (by simpa using h))
    · rw [if_neg hc] at h
      exact Or.inr (Or.inr (by simpa using h))

/-- An effect that belongs to none of the target's dependency sets is
never dispatched by `trigger`. -/
theorem trigger_not_dispatched (dev : Bool) (env : Nat → ReactiveEffectOptions)
    (target : Target) (type : TriggerOpTypes) (key : Option Key)
    (nv : Option Int) (s : State) (e : Nat) (evs : List Event)
    (h : trigger dev env target type key nv s = Except.ok evs)
    (hnot : ∀ dm, alGet s.targetMap target.id = some dm → ∀ kv ∈ dm, e ∉ kv.2) :
    Event.ranEffect e ∉ evs ∧ Event.scheduled e ∉ evs := by
  cases halg : alGet s.targetMap target.id with
  | none =>
    rw [trigger_of_untracked dev env target type key nv s halg] at h
    injection h with h
    subst h
    simp
  | some dm =>
    rw [trigger_of_tracked dev env target type key nv s dm halg] at h
    cases hte : triggerEffects env s.activeEffect target type key nv dm with
    | error u =>
      rw [hte] at h
      cases h
    | ok L =>
      rw [hte] at h
      injection h with h
      subst h
      have hsub := triggerEffects_subset env s.activeEffect target type key nv
        dm L hte
      constructor
      · intro hmem
        obtain ⟨l, hl, hin⟩ := List.mem_flatten.mp hmem
        obtain ⟨e', he', rfl⟩ := List.mem_map.mp hl
        rcases mem_dispatchOne dev env target type key e' _ hin with
          hev | hev | hev
        · cases hev
        · cases hev
        · cases hev
          obtain ⟨kv, hkv, hekv⟩ := hsub _ he'
          exact hnot dm halg kv hkv hekv
      · intro hmem
        obtain ⟨l, hl, hin⟩ := List.mem_flatten.mp hmem
        obtain ⟨e', he', rfl⟩ := List.mem_map.mp hl
        rcases mem_dispatchOne dev env target type key e' _ hin with
          hev | hev | hev
        · cases hev
        · cases hev
          obtain ⟨kv, hkv, hekv⟩ := hsub _ he'
          exact hnot dm halg kv hkv hekv
        · cases hev

/-- Counterexample to C7's final clause ("a stopped effect is never re-run
by any subsequent trigger"): an effect that stops itself mid-run and then
performs a tracked read is re-added to a dependency set while already
stopped (its run is still the active effect, and `track` does not check
`active`).  `sSelfStopped` is the state actually produced by running
effect `0` with such a computation: the effect is inactive yet subscribed
to `(tPlain, keyA)`; a subsequent `trigger` on that key dispatches it
synchronously, and invoking it executes the raw computation (returning
`some 7` rather than the no-op `none`). -/
theorem stopped_effect_rerun_by_trigger :
    (sSelfStopped.eff 0).active = false ∧
    sSelfStopped.depAt 0 keyA = [0] ∧
    trigger false env0 tPlain TriggerOpTypes.SET (some keyA) none
      sSelfStopped = Except.ok [Event.ranEffect 0] ∧
    (runEffect env0 fnConst7 0 sSelfStopped).2 = Except.ok (some 7) := by
  decide

/-- C7 amended: `stop(effect)` on an active effect removes the effect from
every dependency set listed in its `deps`, fires `onStop` when configured,
clears `deps`, and sets `active` to `false`; `stop` on a stopped effect is
a no-op; and no core operation ever sets `active` back to `true`.  However
a stopped effect can be re-added to a dependency set (see
`stopped_effect_rerun_by_trigger`) and then re-run; what holds is that a
stopped effect belonging to none of the target's dependency sets is never
dispatched by a subsequent `trigger`. -/
theorem stop_contract (env : Nat → ReactiveEffectOptions) (s : State)
    (e : Nat) :
    ((s.eff e).active = true →
       ((stop env s e).1.eff e).active = false ∧
       (stop env s e).2 = (if (env e).hasOnStop then [Event.onStop e] else []) ∧
       (∀ tk ∈ (s.eff e).deps, e ∉ (stop env s e).1.depAt tk.1 tk.2) ∧
       ((stop env s e).1.eff e).deps = []) ∧
    ((s.eff e).active = false → stop env s e = (s, [])) ∧
    ((s.eff e).active = false →
       (∀ dev target type key,
          ((track dev env target type key s).1.eff e).active = false) ∧
       (∀ e', ((cleanup s e').eff e).active = false) ∧
       (∀ e', ((stop env s e').1.eff e).active = false) ∧
       ((pauseTracking s).eff e).active = false ∧
       ((enableTracking s).eff e).active = false ∧
       ((resetTracking s).eff e).active = false ∧
       (∀ (fn : State → State × Except Unit Nat) (e' : Nat),
          (∀ s', ((fn s').1.eff e).active = (s'.eff e).active) →
          ((runEffect env fn e' s).1.eff e).active = false) ∧
       (∀ dev target type key nv evs,
          trigger dev env target type key nv s = Except.ok evs →
          (∀ dm, alGet s.targetMap target.id = some dm →
            ∀ kv ∈ dm, e ∉ kv.2) →
          Event.ranEffect e ∉ evs ∧ Event.scheduled e ∉ evs)) := by
  refine ⟨?_, ?_, ?_⟩
  · intro hact
    rw [stop_eq_of_active env s e hact]
    refine ⟨?_, rfl, ?_, ?_⟩
    · simp [State.eff, alGet_alSet_self]
    · exact cleanup_removes s e
    · have h3 : ((cleanup s e).eff e).deps = [] := by rw [cleanup_eff_self]
      simp [State.eff, alGet_alSet_self]
      exact h3
  · intro hinact
    exact stop_eq_of_inactive env s e hinact
  · intro hinact
    refine ⟨?_, ?_, ?_, hinact, hinact, ?_, ?_, ?_⟩
    · intro dev target type key
      rw [track_active_eq]
      exact hinact
    · intro e'
      rw [cleanup_active_eq]
      exact hinact
    · intro e'
      exact stop_active_flag env s e e' hinact
    · rw [eff_of_effs_eq (resetTracking s) s e (resetTracking_effs s)]
      exact hinact
    · intro fn e' hfn
      rw [runEffect_active_flag env fn e' s e hfn]
      exact hinact
    · intro dev target type key nv evs htr hnone
      exact trigger_not_dispatched dev env target type key nv s e evs htr hnone

/-- Witness for `stop_contract`: stopping the subscribed effect `0` of
`sTracked` deactivates it; a second stop on an already-stopped effect is a
no-op; and a trigger on a state where the stopped effect is in no
dependency set dispatches nothing for it. -/
theorem stop_contract_witness :
    ((stop env0 sTracked 0).1.eff 0).active = false ∧
    stop env0 sStopped 0 = (sStopped, []) ∧
    (Event.ranEffect 0 ∉ ([] : List Event) ∧
     Event.scheduled 0 ∉ ([] : List Event)) :=
  ⟨((stop_contract env0 sTracked 0).1 (by decide)).1,
   (stop_contract env0 sStopped 0).2.1 (by decide),
   ((stop_contract env0 sStopped 0).2.2 (by decide)).2.2.2.2.2.2.2
     false tPlain TriggerOpTypes.SET (some keyA) none []
     (by decide) (fun dm hdm => by cases hdm)⟩

/-! Infrastructure for the bidirectional membership invariant (C10). -/

theorem alSet_mem_cases [DecidableEq α] (l : List (α × β)) (k : α) (v : β) :
    ∀ p ∈ alSet l k v, p = (k, v) ∨ p ∈ l := by
  induction l with
  | nil =>
    intro p hp
    simp [alSet] at hp
    exact Or.inl hp
  | cons hd tl ih =>
    obtain ⟨a, b⟩ := hd
    intro p hp
    by_cases h : a = k
    · subst h
      simp only [alSet, if_pos rfl] at hp
      rcases List.mem_cons.mp hp with rfl | hp
      · exact Or.inl rfl
      · exact Or.inr (List.mem_cons_of_mem _ hp)
    · simp only [alSet, h, ite_false] at hp
      rcases List.mem_cons.mp hp with rfl | hp
      · exact Or.inr (List.mem_cons_self _ _)
      · rcases ih p hp with h1 | h1
        · exact Or.inl h1
        · exact Or.inr (List.mem_cons_of_mem _ h1)

theorem goodState_to_goodRel (s : State) (hg : goodState s) : goodRel s := by
  constructor
  · intro t k x hx
    rw [State.depAt, tmAt] at hx
    cases h1 : alGet s.targetMap t with
    | none => simp [h1, alGet] at hx
    | some dm =>
      simp only [h1, Option.getD_some] at hx
      cases h2 : alGet dm k with
      | none => simp [h2] at hx
      | some d =>
        simp only [h2, Option.getD_some] at hx
        exact hg.1 (t, dm) (alGet_mem h1) (k, d) (alGet_mem h2) x hx
  · intro x tk htk
    cases h1 : alGet s.effs x with
    | none =>
      have hdeq : (s.eff x).deps = [] := by
        simp [State.eff, h1]
      rw [hdeq] at htk
      simp at htk
    | some st =>
      have hdeq : (s.eff x).deps = st.deps := by simp [State.eff, h1]
      rw [hdeq] at htk
      exact hg.2 (x, st) (alGet_mem h1) tk htk

theorem goodRel_to_goodState (s : State) (hwf : wfState s) (hg : goodRel s) :
    goodState s := by
  constructor
  · intro tdm htdm kd hkd x hx
    have h1 : alGet s.targetMap tdm.1 = some tdm.2 :=
      mem_alGet_of_nodup hwf.1.1 htdm
    have h2 : alGet tdm.2 kd.1 = some kd.2 :=
      mem_alGet_of_nodup (hwf.1.2 tdm htdm) hkd
    have hx' : x ∈ s.depAt tdm.1 kd.1 := by
      rw [State.depAt, tmAt, h1]
      simpa [h2] using hx
    exact hg.1 tdm.1 kd.1 x hx'
  · intro ee hee tk htk
    have h1 : alGet s.effs ee.1 = some ee.2 := mem_alGet_of_nodup hwf.2 hee
    have hdeq : (s.eff ee.1).deps = ee.2.deps := by simp [State.eff, h1]
    exact hg.2 ee.1 tk (by rw [hdeq]; exact htk)

theorem wfState_congr (s1 s2 : State) (ht : s1.targetMap = s2.targetMap)
    (he : s1.effs = s2.effs) (h : wfState s1) : wfState s2 := by
  rw [wfState, ← ht, ← he]
  exact h

theorem goodState_congr (s1 s2 : State) (ht : s1.targetMap = s2.targetMap)
    (he : s1.effs = s2.effs) (h : goodState s1) : goodState s2 := by
  constructor
  · intro tdm htdm kd hkd x hx
    have htdm' : tdm ∈ s1.targetMap := by rw [ht]; exact htdm
    have hd := h.1 tdm htdm' kd hkd x hx
    rw [show s2.eff x = s1.eff x from by simp [State.eff, he]]
    exact hd
  · intro ee hee tk htk
    have hee' : ee ∈ s1.effs := by rw [he]; exact hee
    have hd := h.2 ee hee' tk htk
    show ee.1 ∈ tmAt s2.targetMap tk.1 tk.2
    rw [← ht]
    exact hd

theorem resetTracking_targetMap (s : State) :
    (resetTracking s).targetMap = s.targetMap := by
  cases h : s.trackStack.getLast? <;> simp [resetTracking, h]

theorem runFinalize_targetMap (s : State) :
    (runFinalize s).targetMap = s.targetMap := by
  rw [runFinalize]
  exact resetTracking_targetMap _

theorem wfTm_depDelete (tm : List (Nat × KeyToDepMap)) (tk : Nat × Key)
    (e : Nat) (h : wfTm tm) : wfTm (depDelete tm tk e) := by
  obtain ⟨t0, k0⟩ := tk
  cases h1 : alGet tm t0 with
  | none => simp only [depDelete, h1]; exact h
  | some dm =>
    cases h2 : alGet dm k0 with
    | none => simp only [depDelete, h1, h2]; exact h
    | some dep =>
      simp only [depDelete, h1, h2]
      constructor
      · exact alSet_nodup_fst _ _ h.1
      · intro tdm htdm
        rcases alSet_mem_cases _ _ _ _ htdm with rfl | hold
        · exact alSet_nodup_fst _ _ (h.2 (t0, dm) (alGet_mem h1))
        · exact h.2 tdm hold

theorem wfTm_foldl_depDelete (L : List (Nat × Key))
    (tm : List (Nat × KeyToDepMap)) (e : Nat) (h : wfTm tm) :
    wfTm (L.foldl (fun acc tk => depDelete acc tk e) tm) := by
  induction L generalizing tm with
  | nil => exact h
  | cons hd tl ih => exact ih _ (wfTm_depDelete tm hd e h)

theorem cleanup_wf (s : State) (e : Nat) (h : wfState s) :
    wfState (cleanup s e) := by
  rw [cleanup]
  split
  · exact h
  · exact ⟨wfTm_foldl_depDelete _ _ _ h.1, alSet_nodup_fst _ _ h.2⟩

theorem track_wf (dev : Bool) (env : Nat → ReactiveEffectOptions)
    (target : Target) (type : TrackOpTypes) (key : Key) (s : State)
    (h : wfState s) : wfState (track dev env target type key s).1 := by
  cases hae : s.activeEffect with
  | none => rw [track_noop_none dev env target type key s hae]; exact h
  | some ae =>
    cases hst : s.shouldTrack with
    | false =>
      rw [track_noop_paused dev env target type key s ae hae hst]
      exact h
    | true =>
      by_cases hmem : ae ∈ s.depAt target.id key
      · rw [track_noop_mem dev env target type key s ae hae hst hmem]
        exact h
      · rw [track_eq_of_new dev env target type key s ae hae hst hmem]
        refine ⟨⟨alSet_nodup_fst _ _ h.1.1, ?_⟩, alSet_nodup_fst _ _ h.2⟩
        intro tdm htdm
        rcases alSet_mem_cases _ _ _ _ htdm with rfl | hold
        · apply alSet_nodup_fst
          cases h1 : alGet s.targetMap target.id with
          | none => simp [h1]
          | some dm0 => simpa using h.1.2 (target.id, dm0) (alGet_mem h1)
        · exact h.1.2 tdm hold

theorem stop_wf (env : Nat → ReactiveEffectOptions) (s : State) (e : Nat)
    (h : wfState s) : wfState (stop env s e).1 := by
  by_cases hact : (s.eff e).active = true
  · rw [stop_eq_of_active env s e hact]
    exact ⟨(cleanup_wf s e h).1, alSet_nodup_fst _ _ (cleanup_wf s e h).2⟩
  · rw [stop_eq_of_inactive env s e (by simpa using hact)]
    exact h

theorem track_deps_superset (dev : Bool) (env : Nat → ReactiveEffectOptions)
    (target : Target) (type : TrackOpTypes) (key : Key) (s : State) (ae : Nat)
    (hae : s.activeEffect = some ae) (hst : s.shouldTrack = true)
    (hmem : ae ∉ s.depAt target.id key) (x : Nat) (tk : Nat × Key)
    (htk : tk ∈ (s.eff x).deps) :
    tk ∈ ((track dev env target type key s).1.eff x).deps := by
  by_cases hx : x = ae
  · subst hx
    rw [track_eff_self dev env target type key s x hae hst hmem]
    exact List.mem_append_left _ htk
  · rw [track_eff_other dev env target type key s ae hae hst hmem x hx]
    exact htk

theorem track_goodRel (dev : Bool) (env : Nat → ReactiveEffectOptions)
    (target : Target) (type : TrackOpTypes) (key : Key) (s : State)
    (hg : goodRel s) : goodRel (track dev env target type key s).1 := by
  cases hae : s.activeEffect with
  | none => rw [track_noop_none dev env target type key s hae]; exact hg
  | some ae =>
    cases hst : s.shouldTrack with
    | false =>
      rw [track_noop_paused dev env target type key s ae hae hst]
      exact hg
    | true =>
      by_cases hmem : ae ∈ s.depAt target.id key
      · rw [track_noop_mem dev env target type key s ae hae hst hmem]
        exact hg
      · constructor
        · intro t k x hx
          by_cases hp : (t, k) = (target.id, key)
          · have h1 : t = target.id := congrArg Prod.fst hp
            have h2 : k = key := congrArg Prod.snd hp
            subst h1
            rw [h2] at hx ⊢
            rw [track_depAt_self dev env target type key s ae hae hst hmem]
              at hx
            rcases List.mem_append.mp hx with hx | hx
            · exact track_deps_superset dev env target type key s ae hae hst
                hmem x _ (hg.1 _ _ x hx)
            · have hxe : x = ae := by simpa using hx
              subst hxe
              rw [track_eff_self dev env target type key s x hae hst hmem]
              exact List.mem_append_right _ (List.mem_singleton.mpr rfl)
          · rw [track_depAt_other dev env target type key s ae hae hst hmem
              t k hp] at hx
            exact track_deps_superset dev env target type key s ae hae hst
              hmem x _ (hg.1 _ _ x hx)
        · intro x tk htk
          by_cases hx : x = ae
          · subst hx
            rw [track_eff_self dev env target type key s x hae hst hmem]
              at htk
            rcases List.mem_append.mp htk with htk | htk
            · exact track_depAt_mono dev env target type key s x hae hst hmem
                tk.1 tk.2 x (hg.2 x tk htk)
            · have htke : tk = (target.id, key) := by simpa using htk
              subst htke
              show x ∈ (track dev env target type key s).1.depAt target.id key
              rw [track_depAt_self dev env target type key s x hae hst hmem]
              exact List.mem_append_right _ (List.mem_singleton.mpr rfl)
          · rw [track_eff_other dev env target type key s ae hae hst hmem x hx]
              at htk
            exact track_depAt_mono dev env target type key s ae hae hst hmem
              tk.1 tk.2 x (hg.2 x tk htk)

theorem cleanup_goodRel (s : State) (e : Nat) (hg : goodRel s) :
    goodRel (cleanup s e) := by
  constructor
  · intro t k x hx
    rw [cleanup_depAt] at hx
    by_cases hin : (t, k) ∈ (s.eff e).deps
    · rw [if_pos hin] at hx
      obtain ⟨hx1, hxne⟩ := mem_setDelete.mp hx
      rw [cleanup_eff_ne s e x hxne]
      exact hg.1 t k x hx1
    · rw [if_neg hin] at hx
      have hd := hg.1 t k x hx
      by_cases hx2 : x = e
      · subst hx2
        exact absurd hd hin
      · rw [cleanup_eff_ne s e x hx2]
        exact hd
  · intro x tk htk
    by_cases hx : x = e
    · subst hx
      rw [cleanup_eff_self] at htk
      simp at htk
    · rw [cleanup_eff_ne s e x hx] at htk
      have hd := hg.2 x tk htk
      show x ∈ (cleanup s e).depAt tk.1 tk.2
      rw [cleanup_depAt]
      simp only [show ((tk.1, tk.2) : Nat × Key) = tk from rfl]
      by_cases hin : tk ∈ (s.eff e).deps
      · rw [if_pos hin]
        exact mem_setDelete.mpr ⟨hd, hx⟩
      · rw [if_neg hin]
        exact hd

theorem stop_goodRel (env : Nat → ReactiveEffectOptions) (s : State) (e : Nat)
    (hg : goodRel s) : goodRel (stop env s e).1 := by
  by_cases hact : (s.eff e).active = true
  · rw [stop_eq_of_active env s e hact]
    have hc := cleanup_goodRel s e hg
    constructor
    · intro t k x hx
      have hx' : x ∈ (cleanup s e).depAt t k := hx
      have hd := hc.1 t k x hx'
      by_cases hxe : x = e
      · subst hxe
        simp only [State.eff, alGet_alSet_self, Option.getD_some]
        exact hd
      · have heq : (State.eff
            { cleanup s e with
                effs := alSet (cleanup s e).effs e
                  ⟨false, ((cleanup s e).eff e).deps⟩ } x) =
            (cleanup s e).eff x := by
          simp [State.eff, alGet_alSet_ne _ _ _ _ hxe]
        rw [heq]
        exact hd
    · intro x tk htk
      have htk' : tk ∈ ((cleanup s e).eff x).deps := by
        by_cases hxe : x = e
        · subst hxe
          simp only [State.eff, alGet_alSet_self, Option.getD_some] at htk
          exact htk
        · have heq : (State.eff
              { cleanup s e with
                  effs := alSet (cleanup s e).effs e
                    ⟨false, ((cleanup s e).eff e).deps⟩ } x) =
              (cleanup s e).eff x := by
            simp [State.eff, alGet_alSet_ne _ _ _ _ hxe]
          rw [heq] at htk
          exact htk
      exact hc.2 x tk htk'
  · rw [stop_eq_of_inactive env s e (by simpa using hact)]
    exact hg

/-- C10: bidirectional membership invariant.  On well-formed states
(duplicate-free map keys, as JS `Map`s guarantee), the invariant "an
effect is a member of a registered dependency set iff that set's
`(target, key)` address appears in the effect's `deps` list" is preserved
by `track` (which establishes both directions together), by `cleanup`
(which removes both directions together), by `stop`, and by `runEffect`
whenever the wrapped computation itself preserves it. -/
theorem dep_membership_invariant (env : Nat → ReactiveEffectOptions)
    (s : State) (hwf : wfState s) (hg : goodState s) :
    (∀ dev target type key,
       wfState (track dev env target type key s).1 ∧
       goodState (track dev env target type key s).1) ∧
    (∀ e, wfState (cleanup s e) ∧ goodState (cleanup s e)) ∧
    (∀ e, wfState (stop env s e).1 ∧ goodState (stop env s e).1) ∧
    (∀ (fn : State → State × Except Unit Nat) (e : Nat),
       (∀ s', wfState s' → goodState s' →
          wfState (fn s').1 ∧ goodState (fn s').1) →
       wfState (runEffect env fn e s).1 ∧
       goodState (runEffect env fn e s).1) := by
  have hgr := goodState_to_goodRel s hg
  refine ⟨?_, ?_, ?_, ?_⟩
  · intro dev target type key
    have hw := track_wf dev env target type key s hwf
    exact ⟨hw, goodRel_to_goodState _ hw
      (track_goodRel dev env target type key s hgr)⟩
  · intro e
    have hw := cleanup_wf s e hwf
    exact ⟨hw, goodRel_to_goodState _ hw (cleanup_goodRel s e hgr)⟩
  · intro e
    have hw := stop_wf env s e hwf
    exact ⟨hw, goodRel_to_goodState _ hw (stop_goodRel env s e hgr)⟩
  · intro fn e hfn
    by_cases hact : (s.eff e).active = true
    · by_cases hstk : e ∈ s.effectStack
      · rw [runEffect_onstack env fn e s hact hstk]
        exact ⟨hwf, hg⟩
      · rw [runEffect_active env fn e s hact hstk]
        have hcw := cleanup_wf s e hwf
        have hcg := goodRel_to_goodState _ hcw (cleanup_goodRel s e hgr)
        have hpw : wfState (runPrepare s e) :=
          wfState_congr (cleanup s e) _ rfl rfl hcw
        have hpg : goodState (runPrepare s e) :=
          goodState_congr (cleanup s e) _ rfl rfl hcg
        obtain ⟨hfw, hfg⟩ := hfn _ hpw hpg
        exact ⟨wfState_congr _ _ (runFinalize_targetMap _).symm
            (runFinalize_effs _).symm hfw,
          goodState_congr _ _ (runFinalize_targetMap _).symm
            (runFinalize_effs _).symm hfg⟩
    · have hact' : (s.eff e).active = false := by simpa using hact
      by_cases hs : (env e).hasScheduler = true
      · rw [runEffect_inactive_sched env fn e s hact' hs]
        exact ⟨hwf, hg⟩
      · rw [runEffect_inactive_raw env fn e s hact' (by simpa using hs)]
        exact hfn s hwf hg

/-- Witness for `dep_membership_invariant`: the tracked state `sTracked`
(one effect subscribed to one key) is well-formed and satisfies the
invariant, and stays so after `cleanup` and after `stop`. -/
theorem dep_membership_invariant_witness :
    (wfState (cleanup sTracked 0) ∧ goodState (cleanup sTracked 0)) ∧
    (wfState (stop env0 sTracked 0).1 ∧ goodState (stop env0 sTracked 0).1) :=
  ⟨(dep_membership_invariant env0 sTracked (by decide) (by decide)).2.1 0,
   (dep_membership_invariant env0 sTracked (by decide) (by decide)).2.2.1 0⟩
